import Mathlib

/-!
Shallow embedding of the turn-decision core of `src/src/main.rs`
(a CodinGame Fall Challenge 2023 bot): world model, move generation,
forward simulation (`apply_moves`), static evaluation (`evaluate`),
depth-limited minimax with alpha-beta pruning (`minimax`) and the root
move selector (`find_best_move`).

Modelling conventions:
- Rust `HashMap<i32, T>` values are modelled as `List T` in iteration
  order; `values().next()` is `List.head?`, `get(&k)` is `List.find?`.
  A `HashMap` cannot hold two entries with the same key, so theorems
  that depend on key uniqueness take a `Nodup` hypothesis on the ids.
- The scan set `HashSet<String>` of `"droneId:creatureId"` strings is
  modelled as a list of `(droneId, creatureId)` pairs with set-like
  insertion; the Rust format string is injective on such pairs.
- `f64` arithmetic is modelled over `ℚ`.  The two transcendental
  operations the code uses, `f64::sqrt` (inside `distance_from` /
  `normalize_vector`) and `log` base 1.05 (inside `emphasize_value`),
  are abstracted as parameters in `FloatOps`; theorems quantify over
  them.  The radius checks `sqrt(dsq) <= 800.0` / `<= 2000.0` of
  `is_near_creature` / `is_near_creature_with_power` are modelled by
  the exact equivalent squared comparisons `dsq ≤ 640000` /
  `dsq ≤ 4000000` (for in-arena coordinates both the real comparison
  and the correctly-rounded `f64` one agree with the squared form).
- Fallible paths (`Option::unwrap` on `None`, which panics in Rust)
  are modelled with `Option`: a `none` result means the Rust code
  panics on that input.
- Randomness (`moves.shuffle(rng)`) is an injected parameter of
  `find_best_move`, and the search depth is the source's constant 3.
-/

namespace FC2023

/-- Abstracted `f64` transcendental operations: `sqrtF` stands for
`f64::sqrt`, `logF` for `log` base 1.05 (as used by `emphasize_value`). -/
structure FloatOps where
  sqrtF : ℚ → ℚ
  logF : ℚ → ℚ

/-- Rust struct `Move`: either "move toward `(x, y)`" (when
`should_move`) or "wait", with the light on or off. -/
structure Move where
  should_move : Bool
  x : Option Int
  y : Option Int
  light : Bool
deriving DecidableEq, Repr

/-- Rust struct `Creature`; `ctype` is the source field `_type`.
Position and velocity are unknown (`none`) until visible. -/
structure Creature where
  id : Int
  color : Int
  x : Option Int
  y : Option Int
  vx : Option Int
  vy : Option Int
  ctype : Int
deriving DecidableEq, Repr

/-- Rust struct `Drone`. -/
structure Drone where
  id : Int
  x : Int
  y : Int
  emergency : Int
  battery : Int
  is_mine : Bool
deriving DecidableEq, Repr

/-- Rust struct `RadarBlip` (dead data: never read by the core). -/
structure RadarBlip where
  drone_id : Int
  creature_id : Int
  radar : String
deriving DecidableEq, Repr

/-- Rust struct `GameState`.  `scans` holds `(droneId, creatureId)`
pairs, the decomposition of the source's `"droneId:creatureId"` keys. -/
structure GameState where
  was_type_0_achieved : Bool
  was_type_1_achieved : Bool
  was_type_2_achieved : Bool
  was_1_of_each_achieved : Bool
  was_all_colors_achieved : Bool
  my_score : Int
  foe_score : Int
  my_scan_count : Int
  foe_scan_count : Int
  my_drone_count : Int
  foe_drone_count : Int
  creatures : List Creature
  my_drones : List Drone
  their_drones : List Drone
  radar_blips : List RadarBlip
  scans : List (Int × Int)
deriving DecidableEq, Repr

/-- `Creature::get_score`: base points 1/2/3 for types 0/1/2, else 0. -/
def Creature.get_score (c : Creature) : Int :=
  if c.ctype = 0 then 1
  else if c.ctype = 1 then 2
  else if c.ctype = 2 then 3
  else 0

/-- Membership test for `self.scans.contains(&format!("{}:{}", d, c))`. -/
def scansContains (scans : List (Int × Int)) (d c : Int) : Bool :=
  decide ((d, c) ∈ scans)

/-- `self.scans.insert(format!("{}:{}", d, c))` (set-like insertion). -/
def scansInsert (scans : List (Int × Int)) (d c : Int) : List (Int × Int) :=
  if (d, c) ∈ scans then scans else (d, c) :: scans

/-- Truncation of an `f64` to `i32` (`as i32` rounds toward zero). -/
def ratTrunc (q : ℚ) : Int :=
  if 0 ≤ q then ⌊q⌋ else -⌊-q⌋

/-- `normalize_vector`: divide by the norm.  In `ℚ`, division by zero
yields 0, matching the Rust saturating cast of the resulting NaN to 0
in the only zero-norm case the callers produce (`x = y = 0`). -/
def normalize_vector (ops : FloatOps) (x y : ℚ) : ℚ × ℚ :=
  let norm := ops.sqrtF (x * x + y * y)
  (x / norm, y / norm)

/-- `emphasize_value`: `1500 * log_1.05 (x + 1) - 1500`. -/
def emphasize_value (ops : FloatOps) (x : ℚ) : ℚ :=
  1500 * ops.logF (x + 1) - 1500

/-- Loop body of `has_scanned_all_creatures_of_color_for`: accumulates
which of the three types of `color` the drone has scanned, returning
`true` as soon as all three are seen (the source's early `return`). -/
def allColorGo (scans : List (Int × Int)) (droneId color : Int) :
    List Creature → Bool → Bool → Bool → Bool
  | [], _, _, _ => false
  | c :: cs, t0, t1, t2 =>
    let ws := scansContains scans droneId c.id
    let hit := decide (c.color = color) && ws
    let t0' := t0 || (hit && decide (c.ctype = 0))
    let t1' := t1 || (hit && decide (c.ctype = 1))
    let t2' := t2 || (hit && decide (c.ctype = 2))
    if t0' && t1' && t2' then true else allColorGo scans droneId color cs t0' t1' t2'

/-- `GameState::has_scanned_all_creatures_of_color_for`. -/
def has_scanned_all_creatures_of_color_for (s : GameState) (color droneId : Int) : Bool :=
  allColorGo s.scans droneId color s.creatures false false false

/-- Loop body of `has_scanned_one_of_each_for` (four colors). -/
def oneEachGo (scans : List (Int × Int)) (droneId ctype : Int) :
    List Creature → Bool → Bool → Bool → Bool → Bool
  | [], _, _, _, _ => false
  | c :: cs, c0, c1, c2, c3 =>
    let ws := scansContains scans droneId c.id
    let hit := decide (c.ctype = ctype) && ws
    let c0' := c0 || (hit && decide (c.color = 0))
    let c1' := c1 || (hit && decide (c.color = 1))
    let c2' := c2 || (hit && decide (c.color = 2))
    let c3' := c3 || (hit && decide (c.color = 3))
    if c0' && c1' && c2' && c3' then true
    else oneEachGo scans droneId ctype cs c0' c1' c2' c3'

/-- `GameState::has_scanned_one_of_each_for`. -/
def has_scanned_one_of_each_for (s : GameState) (ctype droneId : Int) : Bool :=
  oneEachGo s.scans droneId ctype s.creatures false false false false

/-- Creature-motion step of `apply_moves`:
`creature.x = creature.x.map(|x| x + creature.vx.unwrap())` (likewise
for `y`/`vy`).  A creature with unknown position is left unchanged;
a known position with unknown velocity panics (`none`). -/
def stepCreature (c : Creature) : Option Creature := do
  let x' ← match c.x, c.vx with
    | none, _ => some (none : Option Int)
    | some x, some v => some (some (x + v))
    | some _, none => none
  let y' ← match c.y, c.vy with
    | none, _ => some (none : Option Int)
    | some y, some v => some (some (y + v))
    | some _, none => none
  some { c with x := x', y := y' }

/-- Motion step over the whole creature map, in iteration order. -/
def stepCreatures : List Creature → Option (List Creature)
  | [] => some []
  | c :: cs => do
    let c' ← stepCreature c
    let cs' ← stepCreatures cs
    some (c' :: cs')

/-- Scan-detection test for one creature: unconditionally reads the
creature's position (the source's `unwrap` inside `is_near_creature`),
then checks `(near_base || (near_power && light)) && !already_scanned`.
The radius comparisons are the exact squared forms of
`distance <= 800.0` / `distance <= 2000.0`. -/
def scanCheck (dr : Drone) (light : Bool) (scans : List (Int × Int))
    (droneId : Int) (c : Creature) : Option Bool := do
  let cx ← c.x
  let cy ← c.y
  let dsq := (dr.x - cx) * (dr.x - cx) + (dr.y - cy) * (dr.y - cy)
  some ((decide (dsq ≤ 640000) || (decide (dsq ≤ 4000000) && light)) &&
    !scansContains scans droneId c.id)

/-- The scan-detection loop: ids of newly scanned creatures, in
creature-map iteration order. -/
def detectScans (dr : Drone) (light : Bool) (scans : List (Int × Int))
    (droneId : Int) : List Creature → Option (List Int)
  | [] => some []
  | c :: cs => do
    let b ← scanCheck dr light scans droneId c
    let rest ← detectScans dr light scans droneId cs
    some (if b then c.id :: rest else rest)

/-- Scoring of one newly scanned creature (the body of the inner loop
of `apply_moves`), threading the state exactly as the source mutates
`self`: insert the scan pair, double the base score and flip the type
flag on a first-of-type scan, add the +3 all-of-color sub-bonus, then
double it and flip `was_all_colors_achieved` whenever that flag was
still false (the source's `if` is not nested under the condition
check), likewise the +4 one-of-each sub-bonus, and credit the acting
side's score and scan counter. -/
def scoreScan (dr : Drone) (st : GameState) (cid : Int) : Option GameState := do
  let c ← st.creatures.find? (fun cr => cr.id == cid)
  let scans1 := scansInsert st.scans dr.id cid
  let base := c.get_score
  let t0 := st.was_type_0_achieved
  let t1 := st.was_type_1_achieved
  let t2 := st.was_type_2_achieved
  let r :=
    if c.ctype = 0 ∧ t0 = false then (base * 2, true, t1, t2)
    else if c.ctype = 1 ∧ t1 = false then (base * 2, t0, true, t2)
    else if c.ctype = 2 ∧ t2 = false then (base * 2, t0, t1, true)
    else (base, t0, t1, t2)
  let st1 := { st with scans := scans1, was_type_0_achieved := r.2.1,
                       was_type_1_achieved := r.2.2.1, was_type_2_achieved := r.2.2.2 }
  let acBase : Int := if has_scanned_all_creatures_of_color_for st1 c.color dr.id then 3 else 0
  let ac :=
    if st1.was_all_colors_achieved = false then (acBase * 2, true)
    else (acBase, st1.was_all_colors_achieved)
  let st2 := { st1 with was_all_colors_achieved := ac.2 }
  let oeBase : Int := if has_scanned_one_of_each_for st2 c.ctype dr.id then 4 else 0
  let oe :=
    if st2.was_1_of_each_achieved = false then (oeBase * 2, true)
    else (oeBase, st2.was_1_of_each_achieved)
  let st3 := { st2 with was_1_of_each_achieved := oe.2 }
  let total := r.1 + ac.1 + oe.1
  some (if dr.is_mine then
          { st3 with my_scan_count := st3.my_scan_count + 1,
                     my_score := st3.my_score + total }
        else
          { st3 with foe_scan_count := st3.foe_scan_count + 1,
                     foe_score := st3.foe_score + total })

/-- The scoring loop over all newly scanned creature ids. -/
def scoreFold (dr : Drone) : GameState → List Int → Option GameState
  | st, [] => some st
  | st, cid :: rest => do
    let st' ← scoreScan dr st cid
    scoreFold dr st' rest

/-- `GameState::apply_moves` (the Forward Simulator): creature motion,
drone advance (speed-capped move toward the target, or sink by 300 on
wait), battery update, scan detection against the post-move drone
position, then the scoring loop. -/
def apply_moves (ops : FloatOps) (s : GameState) (m : Move) : Option GameState := do
  let creatures1 ← stepCreatures s.creatures
  let drone0 ← s.my_drones.head?
  let droneId := drone0.id
  let drone1 ← if m.should_move then do
      let tx ← m.x
      let ty ← m.y
      let n := normalize_vector ops ((tx : ℚ) - (drone0.x : ℚ)) ((ty : ℚ) - (drone0.y : ℚ))
      some { drone0 with x := drone0.x + ratTrunc (n.1 * 600),
                         y := drone0.y + ratTrunc (n.2 * 600) }
    else
      some { drone0 with y := drone0.y + 300 }
  let battery2 := if m.light then max 0 (drone1.battery - 5) else min 30 (drone1.battery + 1)
  let drone2 := { drone1 with battery := battery2 }
  let ids ← detectScans drone2 m.light s.scans droneId creatures1
  let s1 := { s with creatures := creatures1, my_drones := drone2 :: s.my_drones.tail }
  scoreFold drone2 s1 ids

/-- Distance-sum fold of `evaluate`: total `distance_from` over the
creatures not yet scanned by `dr` (reading, and thus unwrapping, the
position of every unscanned creature). -/
def sumDistTo (ops : FloatOps) (dr : Drone) (scans : List (Int × Int)) :
    List Creature → Option ℚ
  | [] => some 0
  | c :: cs => do
    let rest ← sumDistTo ops dr scans cs
    if scansContains scans dr.id c.id then some rest
    else do
      let cx ← c.x
      let cy ← c.y
      some (ops.sqrtF (((dr.x : ℚ) - (cx : ℚ)) * ((dr.x : ℚ) - (cx : ℚ)) +
        ((dr.y : ℚ) - (cy : ℚ)) * ((dr.y : ℚ) - (cy : ℚ))) + rest)

/-- `GameState::evaluate` (the Evaluator); the dead `log_avg`
debug parameter is dropped.  Division by `creatures.len()` is rational
division (the empty-creature 0/0-NaN case never arises in play). -/
def evaluate (ops : FloatOps) (s : GameState) : Option ℚ := do
  let base : ℚ := (s.my_score : ℚ) * 100000 - (s.foe_score : ℚ) * 100000
    + (if s.was_all_colors_achieved then (500 : ℚ) else 0)
    + (if s.was_1_of_each_achieved then (500 : ℚ) else 0)
  let myDrone ← s.my_drones.head?
  let mySum ← sumDistTo ops myDrone s.scans s.creatures
  let myAvg := mySum / (s.creatures.length : ℚ)
  let foeDrone ← s.their_drones.head?
  let foeSum ← sumDistTo ops foeDrone s.scans s.creatures
  let foeAvg := foeSum / (s.creatures.length : ℚ)
  some (base - emphasize_value ops myAvg + emphasize_value ops foeAvg)

/-- Arena clamp of a move target: `i32::max(0, i32::min(10000, v))`. -/
def clampCoord (v : Int) : Int := max 0 (min 10000 v)

/-- `GameState::get_possible_moves` (the Move Generator): the four
diagonal targets at offset 600 in source order, each with light on
then off, then the two waits (light on, then off). -/
def get_possible_moves (s : GameState) : Option (List Move) := do
  let d ← s.my_drones.head?
  some [
    ⟨true, some (clampCoord (d.x + 600)), some (clampCoord (d.y + 600)), true⟩,
    ⟨true, some (clampCoord (d.x + 600)), some (clampCoord (d.y + 600)), false⟩,
    ⟨true, some (clampCoord (d.x - 600)), some (clampCoord (d.y - 600)), true⟩,
    ⟨true, some (clampCoord (d.x - 600)), some (clampCoord (d.y - 600)), false⟩,
    ⟨true, some (clampCoord (d.x + 600)), some (clampCoord (d.y - 600)), true⟩,
    ⟨true, some (clampCoord (d.x + 600)), some (clampCoord (d.y - 600)), false⟩,
    ⟨true, some (clampCoord (d.x - 600)), some (clampCoord (d.y + 600)), true⟩,
    ⟨true, some (clampCoord (d.x - 600)), some (clampCoord (d.y + 600)), false⟩,
    ⟨false, none, none, true⟩,
    ⟨false, none, none, false⟩ ]

/-- Maximizing loop of `minimax`: fold the running `alpha` through the
children (each child searched with the current window), breaking as
soon as `beta <= alpha`; returns the final `alpha`. -/
def abMaxLoop (ops : FloatOps) (f : GameState → ℚ → ℚ → Option ℚ)
    (s : GameState) (β : ℚ) : List Move → ℚ → Option ℚ
  | [], α => some α
  | m :: ms, α => do
    let s' ← apply_moves ops s m
    let sc ← f s' α β
    let α' := max α sc
    if β ≤ α' then some α' else abMaxLoop ops f s β ms α'

/-- Minimizing loop of `minimax`, dual to `abMaxLoop`. -/
def abMinLoop (ops : FloatOps) (f : GameState → ℚ → ℚ → Option ℚ)
    (s : GameState) (α : ℚ) : List Move → ℚ → Option ℚ
  | [], β => some β
  | m :: ms, β => do
    let s' ← apply_moves ops s m
    let sc ← f s' α β
    let β' := min β sc
    if β' ≤ α then some β' else abMinLoop ops f s α ms β'

/-- `GameState::minimax` (the Search Driver): depth-limited alpha-beta
over `get_possible_moves` / `apply_moves`, alternating the maximizing
flag every ply and returning `evaluate` at depth 0. -/
def minimax (ops : FloatOps) : Nat → GameState → ℚ → ℚ → Bool → Option ℚ
  | 0, s, _, _, _ => evaluate ops s
  | d + 1, s, α, β, true => do
    let moves ← get_possible_moves s
    abMaxLoop ops (fun s' a b => minimax ops d s' a b false) s β moves α
  | d + 1, s, α, β, false => do
    let moves ← get_possible_moves s
    abMinLoop ops (fun s' a b => minimax ops d s' a b true) s α moves β

/-- The score `find_best_move` assigns to one root candidate: apply the
Forward Simulator, then `minimax(3, i32::MIN as f64, i32::MAX as f64,
true)` — depth 3 with the *maximizing* flag. -/
def rootScore (ops : FloatOps) (s : GameState) (m : Move) : Option ℚ := do
  let s' ← apply_moves ops s m
  minimax ops 3 s' (-2147483648) 2147483647 true

/-- Root loop of `find_best_move`: keep the first candidate whose score
strictly exceeds the running best, starting from `i32::MIN as f64`. -/
def bestGo (ops : FloatOps) (s : GameState) :
    List Move → Option Move → ℚ → Option (Option Move)
  | [], best, _ => some best
  | m :: ms, best, bestScore => do
    let sc ← rootScore ops s m
    if bestScore < sc then bestGo ops s ms (some m) sc
    else bestGo ops s ms best bestScore

/-- `GameState::find_best_move` (the Move Selector); the
`thread_rng`-driven shuffle is injected as the `shuffle` parameter. -/
def find_best_move (ops : FloatOps) (shuffle : List Move → List Move)
    (s : GameState) : Option (Option Move) := do
  let possible ← get_possible_moves s
  bestGo ops s (shuffle possible) none (-2147483648)

/-! ### Spec-side definitions

The next definitions follow the specification's words rather than the
source, for the refinement claims: `plainMinimax` is the *unpruned*
minimax value ("Alpha-beta result equals unpruned minimax result"),
and `bestSpec` is the spec's description of the Move Selector's result
("the candidate with the highest resulting score, keeping the
first-seen candidate on exact ties"). -/

/-- Maximum of a list of scores (`none` on the empty list). -/
def listMaxQ : List ℚ → Option ℚ
  | [] => none
  | x :: xs => some (xs.foldl max x)

/-- Minimum of a list of scores (`none` on the empty list). -/
def listMinQ : List ℚ → Option ℚ
  | [] => none
  | x :: xs => some (xs.foldl min x)

/-- Children scores for the unpruned minimax: the value of
`f (apply_moves s m)` for every candidate `m`, in order. -/
def plainScores (ops : FloatOps) (f : GameState → Option ℚ) (s : GameState) :
    List Move → Option (List ℚ)
  | [] => some []
  | m :: ms => do
    let s' ← apply_moves ops s m
    let v ← f s'
    let rest ← plainScores ops f s ms
    some (v :: rest)

/-- Modelled from the spec: depth-limited minimax *without* pruning —
at depth 0 the Evaluator's score, otherwise the maximum (resp.
minimum) of the children's values; sides alternate every ply. -/
def plainMinimax (ops : FloatOps) : Nat → GameState → Bool → Option ℚ
  | 0, s, _ => evaluate ops s
  | d + 1, s, p => do
    let moves ← get_possible_moves s
    let scores ← plainScores ops (fun s' => plainMinimax ops d s' (!p)) s moves
    if p then listMaxQ scores else listMinQ scores

/-- Modelled from the spec: the first-seen candidate attaining the
highest score, provided that score exceeds the initial threshold
`i32::MIN as f64`; `none` otherwise. -/
def bestSpec (f : Move → ℚ) (l : List Move) : Option Move :=
  let m := (l.map f).foldl max (-2147483648)
  if (-2147483648 : ℚ) < m then l.find? (fun mv => decide (f mv = m)) else none

/-! ### Readiness predicates (domains of the partial operations) -/

/-- All of a creature's motion data is known. -/
def CreatureKnown (c : Creature) : Prop :=
  c.x.isSome = true ∧ c.y.isSome = true ∧ c.vx.isSome = true ∧ c.vy.isSome = true

instance : DecidablePred CreatureKnown := fun c => by
  unfold CreatureKnown; infer_instance

/-- States on which the core operations run to completion: a drone on
each side and full motion data for every creature. -/
def StateReady (s : GameState) : Prop :=
  s.my_drones ≠ [] ∧ s.their_drones ≠ [] ∧ ∀ c ∈ s.creatures, CreatureKnown c

instance : DecidablePred StateReady := fun s => by
  unfold StateReady; infer_instance

/-- Well-formed candidate: a move action carries a target. -/
def MoveReady (m : Move) : Prop :=
  m.should_move = true → m.x.isSome = true ∧ m.y.isSome = true

instance : DecidablePred MoveReady := fun m => by
  unfold MoveReady; infer_instance

/-- The battery update of `apply_moves`, as a standalone function
(definitionally equal to the inline update in `apply_moves`). -/
def battUpd (light : Bool) (d : Drone) : Drone :=
  { d with battery := if light then max 0 (d.battery - 5) else min 30 (d.battery + 1) }

/-- The post-move drone of `apply_moves` for a move action. -/
def moveDrone (ops : FloatOps) (d : Drone) (tx ty : Int) : Drone :=
  { d with
    x := d.x + ratTrunc ((normalize_vector ops ((tx : ℚ) - (d.x : ℚ)) ((ty : ℚ) - (d.y : ℚ))).1 * 600),
    y := d.y + ratTrunc ((normalize_vector ops ((tx : ℚ) - (d.x : ℚ)) ((ty : ℚ) - (d.y : ℚ))).2 * 600) }

/-- The first-of-type doubling condition of the scoring step. -/
def typeDoubles (st : GameState) (c : Creature) : Prop :=
  (c.ctype = 0 ∧ st.was_type_0_achieved = false) ∨
  (c.ctype = 1 ∧ st.was_type_1_achieved = false) ∨
  (c.ctype = 2 ∧ st.was_type_2_achieved = false)

instance (st : GameState) (c : Creature) : Decidable (typeDoubles st c) := by
  unfold typeDoubles; infer_instance

/-- Closed-form description of one scoring event (what `scoreScan`
actually does to the state): the scan pair is recorded; a type flag
becomes true as soon as a creature of its type is scored, and exactly
a first-of-type scan has its base points doubled; the all-colors and
one-of-each flags become true after *any* scoring event, and the +3 /
+4 sub-bonuses (possibly zero — their conditions need not hold) are
doubled exactly when the respective flag was still false; the acting
side's score and scan counter are credited. -/
def scoreScanSpec (dr : Drone) (st : GameState) (cid : Int) (c : Creature) : GameState :=
  let scans' := scansInsert st.scans dr.id cid
  let typePoints : Int := if typeDoubles st c then c.get_score * 2 else c.get_score
  let condAC := has_scanned_all_creatures_of_color_for { st with scans := scans' } c.color dr.id
  let acPoints : Int := (if condAC then 3 else 0) * (if st.was_all_colors_achieved then 1 else 2)
  let condOE := has_scanned_one_of_each_for { st with scans := scans' } c.ctype dr.id
  let oePoints : Int := (if condOE then 4 else 0) * (if st.was_1_of_each_achieved then 1 else 2)
  let total := typePoints + acPoints + oePoints
  { st with
    scans := scans',
    was_type_0_achieved := st.was_type_0_achieved || decide (c.ctype = 0),
    was_type_1_achieved := st.was_type_1_achieved || decide (c.ctype = 1),
    was_type_2_achieved := st.was_type_2_achieved || decide (c.ctype = 2),
    was_all_colors_achieved := true,
    was_1_of_each_achieved := true,
    my_score := st.my_score + (if dr.is_mine then total else 0),
    foe_score := st.foe_score + (if dr.is_mine then 0 else total),
    my_scan_count := st.my_scan_count + (if dr.is_mine then 1 else 0),
    foe_scan_count := st.foe_scan_count + (if dr.is_mine then 0 else 1) }

/-- Bounded quantification over an `Option` is decidable. -/
instance optionBAllDecidable {α : Type} (p : α → Prop) [DecidablePred p] :
    (o : Option α) → Decidable (∀ x ∈ o, p x)
  | none => isTrue (by simp)
  | some a => decidable_of_iff (p a) (by simp)

/-- The Evaluator value on a saturated state (every creature already
scanned by both head drones): the two mean-distance terms are `0`, so
the emphasis terms cancel for *every* choice of `FloatOps`. -/
def satScore (s : GameState) : ℚ :=
  (s.my_score : ℚ) * 100000 - (s.foe_score : ℚ) * 100000
    + (if s.was_all_colors_achieved then (500 : ℚ) else 0)
    + (if s.was_1_of_each_achieved then (500 : ℚ) else 0)

/-- A ready state in which both head drones have already scanned every
creature: the Forward Simulator can detect nothing new, so scores,
flags and scans are frozen along every search branch. -/
def Saturated (s : GameState) : Prop :=
  StateReady s ∧
  ∀ c ∈ s.creatures, (∀ d ∈ s.my_drones.head?, (d.id, c.id) ∈ s.scans) ∧
    (∀ d ∈ s.their_drones.head?, (d.id, c.id) ∈ s.scans)

instance : DecidablePred Saturated := fun s => by
  unfold Saturated; infer_instance


/-! ### Concrete example states -/

/-- Concrete `FloatOps` instance for closed examples; the states below
are arranged so that results do not depend on this choice. -/
def exOps : FloatOps := ⟨fun _ => 0, fun _ => 0⟩

def waitOff : Move := ⟨false, none, none, false⟩

def waitOn : Move := ⟨false, none, none, true⟩

/-- One unscanned type-0 color-0 creature sitting where the drone will
sink to; no scans, all flags false. -/
def exCreature : Creature := ⟨10, 0, some 5000, some 500, some 0, some 0, 0⟩

def exMyDrone : Drone := ⟨1, 5000, 200, 0, 30, true⟩

def exFoeDrone : Drone := ⟨2, 9000, 9000, 0, 30, false⟩

def exState : GameState :=
  ⟨false, false, false, false, false, 0, 0, 0, 0, 1, 1,
   [exCreature], [exMyDrone], [exFoeDrone], [], []⟩

/-- `apply_moves exOps exState waitOff`: the drone sinks to (5000,500),
scans creature 10 (distance 0), scores 1×2 = 2 (first-of-type), and all
of `was_type_0`, `was_1_of_each` and `was_all_colors` flip. -/
def exAfter : GameState :=
  ⟨true, false, false, true, true, 2, 0, 1, 0, 1, 1,
   [⟨10, 0, some 5000, some 500, some 0, some 0, 0⟩],
   [⟨1, 5000, 500, 0, 30, true⟩], [⟨2, 9000, 9000, 0, 30, false⟩], [], [(1, 10)]⟩

def exAfterDrone : Drone := ⟨1, 5000, 500, 0, 30, true⟩

/-- A creature with fully unknown motion data (as between setup and
first visibility). -/
def unknownCreature : Creature := ⟨10, 0, none, none, none, none, 0⟩

def unknownState : GameState :=
  ⟨false, false, false, false, false, 0, 0, 0, 0, 1, 1,
   [unknownCreature], [exMyDrone], [exFoeDrone], [], []⟩

/-- Drone with battery 36, above the cap. -/
def battDrone36 : Drone := ⟨1, 5000, 200, 0, 36, true⟩

def battState : GameState :=
  ⟨false, false, false, false, false, 0, 0, 0, 0, 1, 1,
   [], [battDrone36], [exFoeDrone], [], []⟩

def battAfterDrone : Drone := ⟨1, 5000, 500, 0, 31, true⟩

def battAfter : GameState :=
  ⟨false, false, false, false, false, 0, 0, 0, 0, 1, 1,
   [], [battAfterDrone], [exFoeDrone], [], []⟩

def emptyState : GameState :=
  ⟨false, false, false, false, false, 0, 0, 0, 0, 1, 1, [], [], [], [], []⟩

def cornerState : GameState :=
  ⟨false, false, false, false, false, 0, 0, 0, 0, 1, 1,
   [], [⟨1, 0, 0, 0, 30, true⟩], [exFoeDrone], [], []⟩

def cornerMoves : List Move := [
  ⟨true, some 600, some 600, true⟩,
  ⟨true, some 600, some 600, false⟩,
  ⟨true, some 0, some 0, true⟩,
  ⟨true, some 0, some 0, false⟩,
  ⟨true, some 600, some 0, true⟩,
  ⟨true, some 600, some 0, false⟩,
  ⟨true, some 0, some 600, true⟩,
  ⟨true, some 0, some 600, false⟩,
  ⟨false, none, none, true⟩,
  ⟨false, none, none, false⟩]

/-- A saturated creature: id 10, scanned by both head drones below. -/
def satCreature : Creature := ⟨10, 0, some 5000, some 5000, some 0, some 0, 0⟩

/-- Saturated state with a huge opponent lead: every reachable
evaluation is `-10^11`, far below `i32::MIN as f64`. -/
def negState : GameState :=
  ⟨false, false, false, false, false, 0, 1000000, 0, 0, 1, 1,
   [satCreature], [⟨1, 5000, 5000, 0, 30, true⟩], [⟨2, 5000, 5000, 0, 30, false⟩], [],
   [(1, 10), (2, 10)]⟩

/-- Saturated state with equal scores: every reachable evaluation is 0. -/
def zeroState : GameState :=
  ⟨false, false, false, false, false, 0, 0, 0, 0, 1, 1,
   [satCreature], [⟨1, 5000, 5000, 0, 30, true⟩], [⟨2, 5000, 5000, 0, 30, false⟩], [],
   [(1, 10), (2, 10)]⟩

/-- The candidate list for a drone at (5000, 5000). -/
def centerMoves : List Move := [
  ⟨true, some 5600, some 5600, true⟩,
  ⟨true, some 5600, some 5600, false⟩,
  ⟨true, some 4400, some 4400, true⟩,
  ⟨true, some 4400, some 4400, false⟩,
  ⟨true, some 5600, some 4400, true⟩,
  ⟨true, some 5600, some 4400, false⟩,
  ⟨true, some 4400, some 5600, true⟩,
  ⟨true, some 4400, some 5600, false⟩,
  ⟨false, none, none, true⟩,
  ⟨false, none, none, false⟩]

/-! ### Lemmas: creature motion -/

/-- A creature with fully unknown position is left untouched by the
motion step (the source's `Option::map` does nothing). -/
theorem stepCreature_none {c : Creature} (hx : c.x = none) (hy : c.y = none) :
    stepCreature c = some c := by
  obtain ⟨id, color, x, y, vx, vy, ctype⟩ := c
  simp only at hx hy
  subst hx; subst hy
  simp [stepCreature]

theorem stepCreature_eq {c : Creature} {x y vx vy : Int} (hx : c.x = some x)
    (hy : c.y = some y) (hvx : c.vx = some vx) (hvy : c.vy = some vy) :
    stepCreature c = some { c with x := some (x + vx), y := some (y + vy) } := by
  simp [stepCreature, hx, hy, hvx, hvy]

/-- Data preserved by one motion step. -/
def stepRel (c c' : Creature) : Prop :=
  c'.id = c.id ∧ c'.color = c.color ∧ c'.ctype = c.ctype ∧
    (CreatureKnown c → CreatureKnown c')

theorem stepCreature_rel {c c' : Creature} (h : stepCreature c = some c') :
    stepRel c c' := by
  unfold stepCreature at h
  rcases hx : c.x with _ | x <;> rcases hvx : c.vx with _ | vx <;>
    rcases hy : c.y with _ | y <;> rcases hvy : c.vy with _ | vy <;>
    simp only [hx, hy, hvx, hvy, Option.bind_eq_bind, Option.some_bind,
      Option.none_bind, Option.some.injEq, reduceCtorEq] at h <;>
    subst h <;>
    refine ⟨rfl, rfl, rfl, fun hk => ?_⟩ <;>
    simp_all [CreatureKnown]

theorem stepCreature_total {c : Creature} (h : CreatureKnown c) :
    ∃ c', stepCreature c = some c' := by
  obtain ⟨hx, hy, hvx, hvy⟩ := h
  rw [Option.isSome_iff_exists] at hx hy hvx hvy
  obtain ⟨x, hx⟩ := hx; obtain ⟨y, hy⟩ := hy
  obtain ⟨vx, hvx⟩ := hvx; obtain ⟨vy, hvy⟩ := hvy
  exact ⟨_, stepCreature_eq hx hy hvx hvy⟩

theorem stepCreatures_forall₂ :
    ∀ {cs cs' : List Creature}, stepCreatures cs = some cs' →
      List.Forall₂ stepRel cs cs'
  | [], cs', h => by
    simp only [stepCreatures, Option.some.injEq] at h
    subst h; exact List.Forall₂.nil
  | c :: cs, cs', h => by
    simp only [stepCreatures, Option.bind_eq_bind, Option.bind_eq_some,
      Option.some.injEq] at h
    obtain ⟨c', hc', rest, hrest, heq⟩ := h
    subst heq
    exact List.Forall₂.cons (stepCreature_rel hc') (stepCreatures_forall₂ hrest)

theorem stepCreatures_total :
    ∀ {cs : List Creature}, (∀ c ∈ cs, CreatureKnown c) →
      ∃ cs', stepCreatures cs = some cs'
  | [], _ => ⟨[], rfl⟩
  | c :: cs, h => by
    obtain ⟨c', hc'⟩ := stepCreature_total (h c (List.mem_cons_self c cs))
    obtain ⟨cs', hcs'⟩ :=
      @stepCreatures_total cs (fun x hx => h x (List.mem_cons_of_mem c hx))
    exact ⟨c' :: cs', by simp [stepCreatures, hc', hcs']⟩

theorem forall₂_step_map_id : ∀ {cs cs' : List Creature},
    List.Forall₂ stepRel cs cs' → cs'.map Creature.id = cs.map Creature.id := by
  intro cs cs' h
  induction h with
  | nil => rfl
  | cons hr _ ih => simp [ih, hr.1]

theorem stepCreatures_map_id {cs cs' : List Creature}
    (h : stepCreatures cs = some cs') :
    cs'.map Creature.id = cs.map Creature.id :=
  forall₂_step_map_id (stepCreatures_forall₂ h)

theorem forall₂_step_known : ∀ {cs cs' : List Creature},
    List.Forall₂ stepRel cs cs' → (∀ c ∈ cs, CreatureKnown c) →
      ∀ c' ∈ cs', CreatureKnown c' := by
  intro cs cs' h
  induction h with
  | nil => intro _ c' h'; simp at h'
  | cons hr _ ih =>
    intro hk c' hc'
    rcases List.mem_cons.1 hc' with h' | h'
    · exact h' ▸ hr.2.2.2 (hk _ (List.mem_cons_self _ _))
    · exact ih (fun c hc => hk c (List.mem_cons_of_mem _ hc)) c' h'

theorem stepCreatures_known {cs cs' : List Creature}
    (h : stepCreatures cs = some cs') (hk : ∀ c ∈ cs, CreatureKnown c) :
    ∀ c' ∈ cs', CreatureKnown c' :=
  forall₂_step_known (stepCreatures_forall₂ h) hk

/-! ### Lemmas: scan detection -/

theorem scanCheck_eq {c : Creature} {cx cy : Int} (dr : Drone) (light : Bool)
    (scans : List (Int × Int)) (droneId : Int)
    (hx : c.x = some cx) (hy : c.y = some cy) :
    scanCheck dr light scans droneId c = some
      ((decide ((dr.x - cx) * (dr.x - cx) + (dr.y - cy) * (dr.y - cy) ≤ 640000) ||
        (decide ((dr.x - cx) * (dr.x - cx) + (dr.y - cy) * (dr.y - cy) ≤ 4000000) && light)) &&
        !scansContains scans droneId c.id) := by
  simp [scanCheck, hx, hy]

theorem scanCheck_total {c : Creature} (dr : Drone) (light : Bool)
    (scans : List (Int × Int)) (droneId : Int)
    (hx : c.x.isSome = true) (hy : c.y.isSome = true) :
    ∃ b, scanCheck dr light scans droneId c = some b := by
  rw [Option.isSome_iff_exists] at hx hy
  obtain ⟨cx, hx⟩ := hx; obtain ⟨cy, hy⟩ := hy
  exact ⟨_, scanCheck_eq dr light scans droneId hx hy⟩

theorem detectScans_total (dr : Drone) (light : Bool) (scans : List (Int × Int))
    (droneId : Int) :
    ∀ {cs : List Creature}, (∀ c ∈ cs, c.x.isSome = true ∧ c.y.isSome = true) →
      ∃ ids, detectScans dr light scans droneId cs = some ids
  | [], _ => ⟨[], rfl⟩
  | c :: cs, h => by
    obtain ⟨b, hb⟩ := scanCheck_total dr light scans droneId
      (h c (List.mem_cons_self c cs)).1 (h c (List.mem_cons_self c cs)).2
    obtain ⟨ids, hids⟩ := @detectScans_total dr light scans droneId cs
      (fun x hx => h x (List.mem_cons_of_mem c hx))
    exact ⟨if b then c.id :: ids else ids, by simp [detectScans, hb, hids]⟩

theorem mem_detectScans (dr : Drone) (light : Bool) (scans : List (Int × Int))
    (droneId : Int) :
    ∀ {cs : List Creature} {ids : List Int}, detectScans dr light scans droneId cs = some ids →
      ∀ x, (x ∈ ids ↔ ∃ c ∈ cs, c.id = x ∧ scanCheck dr light scans droneId c = some true)
  | [], ids, h, x => by
    simp only [detectScans, Option.some.injEq] at h
    subst h; simp
  | c :: cs, ids, h, x => by
    simp only [detectScans, Option.bind_eq_bind, Option.bind_eq_some,
      Option.some.injEq] at h
    obtain ⟨b, hb, rest, hrest, heq⟩ := h
    subst heq
    have ih := mem_detectScans dr light scans droneId hrest x
    rcases b with _ | _
    · rw [if_neg (by simp), ih]
      constructor
      · rintro ⟨c', hc', hid, hchk⟩
        exact ⟨c', List.mem_cons_of_mem c hc', hid, hchk⟩
      · rintro ⟨c', hc', hid, hchk⟩
        rcases List.mem_cons.1 hc' with h' | h'
        · subst h'; rw [hb] at hchk; simp at hchk
        · exact ⟨c', h', hid, hchk⟩
    · rw [if_pos rfl, List.mem_cons, ih]
      constructor
      · rintro (h' | ⟨c', hc', hid, hchk⟩)
        · exact ⟨c, List.mem_cons_self c cs, h'.symm, hb⟩
        · exact ⟨c', List.mem_cons_of_mem c hc', hid, hchk⟩
      · rintro ⟨c', hc', hid, hchk⟩
        rcases List.mem_cons.1 hc' with h' | h'
        · subst h'; exact Or.inl hid.symm
        · exact Or.inr ⟨c', h', hid, hchk⟩

/-! ### Lemmas: scoring -/

theorem mem_scansInsert (scans : List (Int × Int)) (d c : Int) (p : Int × Int) :
    p ∈ scansInsert scans d c ↔ p = (d, c) ∨ p ∈ scans := by
  unfold scansInsert
  split
  · constructor
    · exact Or.inr
    · rintro (rfl | h) <;> assumption
  · simp [List.mem_cons]

/-- The first-of-type if-chain of `scoreScan`, in closed form. -/
theorem typeChain_eq (c : Creature) (t0 t1 t2 : Bool) (base : Int) :
    (if c.ctype = 0 ∧ t0 = false then (base * 2, true, t1, t2)
     else if c.ctype = 1 ∧ t1 = false then (base * 2, t0, true, t2)
     else if c.ctype = 2 ∧ t2 = false then (base * 2, t0, t1, true)
     else (base, t0, t1, t2)) =
    ((if (c.ctype = 0 ∧ t0 = false) ∨ (c.ctype = 1 ∧ t1 = false) ∨
        (c.ctype = 2 ∧ t2 = false) then base * 2 else base),
      t0 || decide (c.ctype = 0), t1 || decide (c.ctype = 1), t2 || decide (c.ctype = 2)) := by
  by_cases e0 : c.ctype = 0 <;> by_cases e1 : c.ctype = 1 <;> by_cases e2 : c.ctype = 2 <;>
    cases t0 <;> cases t1 <;> cases t2 <;> simp_all

/-- The unnested double-and-flip step of `scoreScan`, in closed form. -/
theorem pairFlag_eq (b : Bool) (base : Int) :
    (if b = false then (base * 2, true) else (base, b)) =
    (base * (if b then 1 else 2), true) := by
  cases b <;> simp

/-- The threaded scoring step computes exactly its closed form. -/
theorem scoreScan_eq {st : GameState} {cid : Int} {c : Creature} (dr : Drone)
    (hfind : st.creatures.find? (fun cr => cr.id == cid) = some c) :
    scoreScan dr st cid = some (scoreScanSpec dr st cid c) := by
  unfold scoreScan scoreScanSpec typeDoubles has_scanned_all_creatures_of_color_for
    has_scanned_one_of_each_for
  rw [hfind]
  simp only [← Option.bind_eq_bind, Option.some_bind, Option.some.injEq,
    typeChain_eq, pairFlag_eq]
  cases hm : dr.is_mine <;> simp [GameState.mk.injEq]

theorem scoreScan_some_elim {dr : Drone} {st : GameState} {cid : Int} {st' : GameState}
    (h : scoreScan dr st cid = some st') :
    ∃ c, st.creatures.find? (fun cr => cr.id == cid) = some c ∧
      st' = scoreScanSpec dr st cid c := by
  cases hfind : st.creatures.find? (fun cr => cr.id == cid) with
  | none =>
    unfold scoreScan at h
    rw [hfind] at h
    simp at h
  | some c =>
    exact ⟨c, rfl, (Option.some.inj ((scoreScan_eq dr hfind).symm.trans h)).symm⟩

theorem scoreScanSpec_creatures (dr : Drone) (st : GameState) (cid : Int) (c : Creature) :
    (scoreScanSpec dr st cid c).creatures = st.creatures := rfl

theorem scoreScanSpec_my_drones (dr : Drone) (st : GameState) (cid : Int) (c : Creature) :
    (scoreScanSpec dr st cid c).my_drones = st.my_drones := rfl

theorem scoreScanSpec_their_drones (dr : Drone) (st : GameState) (cid : Int) (c : Creature) :
    (scoreScanSpec dr st cid c).their_drones = st.their_drones := rfl

theorem scoreScanSpec_scans (dr : Drone) (st : GameState) (cid : Int) (c : Creature) :
    (scoreScanSpec dr st cid c).scans = scansInsert st.scans dr.id cid := rfl

theorem scoreScanSpec_ac (dr : Drone) (st : GameState) (cid : Int) (c : Creature) :
    (scoreScanSpec dr st cid c).was_all_colors_achieved = true := rfl

theorem scoreScanSpec_oe (dr : Drone) (st : GameState) (cid : Int) (c : Creature) :
    (scoreScanSpec dr st cid c).was_1_of_each_achieved = true := rfl

theorem scoreFold_frame (dr : Drone) : ∀ {ids : List Int} {st st' : GameState},
    scoreFold dr st ids = some st' →
      st'.creatures = st.creatures ∧ st'.my_drones = st.my_drones ∧
      st'.their_drones = st.their_drones
  | [], st, st', h => by
    simp only [scoreFold, Option.some.injEq] at h
    subst h; exact ⟨rfl, rfl, rfl⟩
  | cid :: rest, st, st', h => by
    simp only [scoreFold, Option.bind_eq_bind, Option.bind_eq_some] at h
    obtain ⟨stm, hstm, hfold⟩ := h
    obtain ⟨c, _, rfl⟩ := scoreScan_some_elim hstm
    obtain ⟨h1, h2, h3⟩ := scoreFold_frame dr hfold
    exact ⟨h1.trans (scoreScanSpec_creatures ..), h2.trans (scoreScanSpec_my_drones ..),
      h3.trans (scoreScanSpec_their_drones ..)⟩

theorem scoreFold_scans_mem (dr : Drone) : ∀ {ids : List Int} {st st' : GameState},
    scoreFold dr st ids = some st' →
      ∀ p, (p ∈ st'.scans ↔ p ∈ st.scans ∨ ∃ cid ∈ ids, p = (dr.id, cid))
  | [], st, st', h, p => by
    simp only [scoreFold, Option.some.injEq] at h
    subst h; simp
  | cid :: rest, st, st', h, p => by
    simp only [scoreFold, Option.bind_eq_bind, Option.bind_eq_some] at h
    obtain ⟨stm, hstm, hfold⟩ := h
    obtain ⟨c, _, rfl⟩ := scoreScan_some_elim hstm
    rw [scoreFold_scans_mem dr hfold p, scoreScanSpec_scans,
      mem_scansInsert]
    constructor
    · rintro ((rfl | hp) | ⟨cid', hcid', rfl⟩)
      · exact Or.inr ⟨cid, List.mem_cons_self _ _, rfl⟩
      · exact Or.inl hp
      · exact Or.inr ⟨cid', List.mem_cons_of_mem _ hcid', rfl⟩
    · rintro (hp | ⟨cid', hcid', rfl⟩)
      · exact Or.inl (Or.inr hp)
      · rcases List.mem_cons.1 hcid' with rfl | h'
        · exact Or.inl (Or.inl rfl)
        · exact Or.inr ⟨cid', h', rfl⟩

theorem scoreFold_flags_mono (dr : Drone) : ∀ {ids : List Int} {st st' : GameState},
    scoreFold dr st ids = some st' →
      (st.was_type_0_achieved = true → st'.was_type_0_achieved = true) ∧
      (st.was_type_1_achieved = true → st'.was_type_1_achieved = true) ∧
      (st.was_type_2_achieved = true → st'.was_type_2_achieved = true) ∧
      (st.was_all_colors_achieved = true → st'.was_all_colors_achieved = true) ∧
      (st.was_1_of_each_achieved = true → st'.was_1_of_each_achieved = true)
  | [], st, st', h => by
    simp only [scoreFold, Option.some.injEq] at h
    subst h; exact ⟨id, id, id, id, id⟩
  | cid :: rest, st, st', h => by
    simp only [scoreFold, Option.bind_eq_bind, Option.bind_eq_some] at h
    obtain ⟨stm, hstm, hfold⟩ := h
    obtain ⟨c, _, rfl⟩ := scoreScan_some_elim hstm
    obtain ⟨h1, h2, h3, h4, h5⟩ := scoreFold_flags_mono dr hfold
    refine ⟨fun h' => h1 ?_, fun h' => h2 ?_, fun h' => h3 ?_,
      fun _ => h4 (scoreScanSpec_ac ..), fun _ => h5 (scoreScanSpec_oe ..)⟩ <;>
      simp [scoreScanSpec, h']

theorem scoreFold_flags_set (dr : Drone) {ids : List Int} {st st' : GameState}
    (h : scoreFold dr st ids = some st') (hne : ids ≠ []) :
    st'.was_all_colors_achieved = true ∧ st'.was_1_of_each_achieved = true := by
  cases ids with
  | nil => exact absurd rfl hne
  | cons cid rest =>
    simp only [scoreFold, Option.bind_eq_bind, Option.bind_eq_some] at h
    obtain ⟨stm, hstm, hfold⟩ := h
    obtain ⟨c, _, rfl⟩ := scoreScan_some_elim hstm
    have := scoreFold_flags_mono dr hfold
    exact ⟨this.2.2.2.1 (scoreScanSpec_ac ..), this.2.2.2.2 (scoreScanSpec_oe ..)⟩

theorem scoreFold_total (dr : Drone) : ∀ {ids : List Int} {st : GameState},
    (∀ cid ∈ ids, ∃ c ∈ st.creatures, c.id = cid) →
      ∃ st', scoreFold dr st ids = some st'
  | [], st, _ => ⟨st, rfl⟩
  | cid :: rest, st, h => by
    obtain ⟨c, hc, hcid⟩ := h cid (List.mem_cons_self _ _)
    have hfind : (st.creatures.find? (fun cr => cr.id == cid)).isSome := by
      rw [List.find?_isSome]
      exact ⟨c, hc, by simp [hcid]⟩
    rw [Option.isSome_iff_exists] at hfind
    obtain ⟨c', hfind⟩ := hfind
    obtain ⟨st', hst'⟩ := @scoreFold_total dr rest (scoreScanSpec dr st cid c')
      (fun x hx => by rw [scoreScanSpec_creatures]; exact h x (List.mem_cons_of_mem _ hx))
    exact ⟨st', by simp [scoreFold, scoreScan_eq dr hfind, hst']⟩

/-! ### Lemmas: the Forward Simulator -/

/-- Anatomy of a successful `apply_moves`. -/
theorem apply_moves_some_elim {ops : FloatOps} {s : GameState} {m : Move} {s' : GameState}
    (h : apply_moves ops s m = some s') :
    ∃ creatures1 drone0 drone1 ids,
      stepCreatures s.creatures = some creatures1 ∧
      s.my_drones.head? = some drone0 ∧
      ((m.should_move = true ∧ ∃ tx ty, m.x = some tx ∧ m.y = some ty ∧
          drone1 = moveDrone ops drone0 tx ty) ∨
        (m.should_move = false ∧ drone1 = { drone0 with y := drone0.y + 300 })) ∧
      detectScans (battUpd m.light drone1) m.light s.scans drone0.id creatures1 = some ids ∧
      scoreFold (battUpd m.light drone1)
        { s with creatures := creatures1,
                 my_drones := battUpd m.light drone1 :: s.my_drones.tail } ids = some s' := by
  unfold apply_moves at h
  simp only [Option.bind_eq_bind, Option.bind_eq_some] at h
  obtain ⟨creatures1, hc1, h⟩ := h
  obtain ⟨drone0, hd0, h⟩ := h
  split at h
  next hsm =>
    simp only [Option.some_bind, Option.bind_eq_some] at h
    obtain ⟨tx, htx, ty, hty, ids, hdet, hfold⟩ := h
    exact ⟨creatures1, drone0, _, ids, hc1, hd0, Or.inl ⟨hsm, tx, ty, htx, hty, rfl⟩, hdet, hfold⟩
  next hsm =>
    simp only [Option.some_bind, Option.bind_eq_some] at h
    obtain ⟨ids, hdet, hfold⟩ := h
    exact ⟨creatures1, drone0, _, ids, hc1, hd0,
      Or.inr ⟨Bool.eq_false_iff.mpr hsm, rfl⟩, hdet, hfold⟩

theorem apply_moves_some_intro {ops : FloatOps} {s : GameState} {m : Move}
    {creatures1 : List Creature} {drone0 drone1 : Drone} {ids : List Int} {s' : GameState}
    (hc1 : stepCreatures s.creatures = some creatures1)
    (hd0 : s.my_drones.head? = some drone0)
    (hd1 : (m.should_move = true ∧ ∃ tx ty, m.x = some tx ∧ m.y = some ty ∧
        drone1 = moveDrone ops drone0 tx ty) ∨
      (m.should_move = false ∧ drone1 = { drone0 with y := drone0.y + 300 }))
    (hdet : detectScans (battUpd m.light drone1) m.light s.scans drone0.id creatures1 = some ids)
    (hfold : scoreFold (battUpd m.light drone1)
      { s with creatures := creatures1,
               my_drones := battUpd m.light drone1 :: s.my_drones.tail } ids = some s') :
    apply_moves ops s m = some s' := by
  unfold apply_moves
  simp only [Option.bind_eq_bind, Option.bind_eq_some]
  refine ⟨creatures1, hc1, drone0, hd0, ?_⟩
  rcases hd1 with ⟨hsm, tx, ty, htx, hty, hd1⟩ | ⟨hsm, hd1⟩
  · subst hd1
    rw [hsm]
    simp only [if_pos, htx, hty, Option.some_bind, ← Option.bind_eq_bind]
    exact Option.bind_eq_some.mpr ⟨ids, hdet, hfold⟩
  · subst hd1
    rw [hsm]
    simp only [Bool.false_eq_true, if_false, Option.some_bind, ← Option.bind_eq_bind]
    exact Option.bind_eq_some.mpr ⟨ids, hdet, hfold⟩

theorem apply_moves_their_drones {ops : FloatOps} {s : GameState} {m : Move} {s' : GameState}
    (h : apply_moves ops s m = some s') : s'.their_drones = s.their_drones := by
  obtain ⟨c1, d0, d1, ids, _, _, _, _, hfold⟩ := apply_moves_some_elim h
  exact (scoreFold_frame _ hfold).2.2

theorem apply_moves_flags_mono {ops : FloatOps} {s : GameState} {m : Move} {s' : GameState}
    (h : apply_moves ops s m = some s') :
    (s.was_type_0_achieved = true → s'.was_type_0_achieved = true) ∧
    (s.was_type_1_achieved = true → s'.was_type_1_achieved = true) ∧
    (s.was_type_2_achieved = true → s'.was_type_2_achieved = true) ∧
    (s.was_all_colors_achieved = true → s'.was_all_colors_achieved = true) ∧
    (s.was_1_of_each_achieved = true → s'.was_1_of_each_achieved = true) := by
  obtain ⟨c1, d0, d1, ids, _, _, _, _, hfold⟩ := apply_moves_some_elim h
  have h5 := scoreFold_flags_mono _ hfold
  exact h5

theorem apply_moves_total (ops : FloatOps) {s : GameState} {m : Move}
    (hs : StateReady s) (hm : MoveReady m) :
    ∃ s', apply_moves ops s m = some s' ∧ StateReady s' := by
  obtain ⟨hmy, hth, hk⟩ := hs
  obtain ⟨cs1, hc1⟩ := stepCreatures_total hk
  obtain ⟨d0, tl, hmys⟩ : ∃ d0 tl, s.my_drones = d0 :: tl := by
    cases hmd : s.my_drones with
    | nil => exact absurd hmd hmy
    | cons a b => exact ⟨a, b, rfl⟩
  have hd0 : s.my_drones.head? = some d0 := by rw [hmys]; rfl
  have hk1 : ∀ c ∈ cs1, CreatureKnown c := stepCreatures_known hc1 hk
  have hbranch : ∃ drone1, ((m.should_move = true ∧ ∃ tx ty, m.x = some tx ∧ m.y = some ty ∧
      drone1 = moveDrone ops d0 tx ty) ∨
      (m.should_move = false ∧ drone1 = { d0 with y := d0.y + 300 })) := by
    cases hsm : m.should_move with
    | true =>
      obtain ⟨hx, hy⟩ := hm hsm
      rw [Option.isSome_iff_exists] at hx hy
      obtain ⟨tx, htx⟩ := hx; obtain ⟨ty, hty⟩ := hy
      exact ⟨moveDrone ops d0 tx ty, Or.inl ⟨rfl, tx, ty, htx, hty, rfl⟩⟩
    | false => exact ⟨_, Or.inr ⟨rfl, rfl⟩⟩
  obtain ⟨drone1, hd1⟩ := hbranch
  obtain ⟨ids, hdet⟩ := @detectScans_total (battUpd m.light drone1) m.light s.scans d0.id
    cs1 (fun c hc => ⟨(hk1 c hc).1, (hk1 c hc).2.1⟩)
  obtain ⟨s2, hfold⟩ := @scoreFold_total (battUpd m.light drone1) ids
    { s with creatures := cs1, my_drones := battUpd m.light drone1 :: s.my_drones.tail }
    (by
      intro cid hcid
      rw [mem_detectScans _ _ _ _ hdet] at hcid
      obtain ⟨c, hc, hcide, _⟩ := hcid
      exact ⟨c, hc, hcide⟩)
  refine ⟨s2, apply_moves_some_intro hc1 hd0 hd1 hdet hfold, ?_, ?_, ?_⟩
  · rw [(scoreFold_frame _ hfold).2.1]
    simp
  · rw [(scoreFold_frame _ hfold).2.2]
    exact hth
  · rw [(scoreFold_frame _ hfold).1]
    exact hk1

theorem apply_moves_ready {ops : FloatOps} {s : GameState} {m : Move} {s' : GameState}
    (hs : StateReady s) (h : apply_moves ops s m = some s') : StateReady s' := by
  obtain ⟨c1, d0, d1, ids, hc1, hd0, _, _, hfold⟩ := apply_moves_some_elim h
  obtain ⟨hmy, hth, hk⟩ := hs
  refine ⟨?_, ?_, ?_⟩
  · rw [(scoreFold_frame _ hfold).2.1]
    simp
  · rw [(scoreFold_frame _ hfold).2.2]
    exact hth
  · rw [(scoreFold_frame _ hfold).1]
    exact stepCreatures_known hc1 hk

theorem apply_moves_none_of_no_drone (ops : FloatOps) {s : GameState} (m : Move)
    (h : s.my_drones = []) : apply_moves ops s m = none := by
  cases happ : apply_moves ops s m with
  | none => rfl
  | some s' =>
    obtain ⟨c1, d0, _, _, _, hd0, _⟩ := apply_moves_some_elim happ
    rw [h] at hd0
    simp at hd0

/-! ### Lemmas: the Move Generator -/

theorem get_possible_moves_eq {s : GameState} {d : Drone}
    (hd : s.my_drones.head? = some d) :
    get_possible_moves s = some [
      ⟨true, some (clampCoord (d.x + 600)), some (clampCoord (d.y + 600)), true⟩,
      ⟨true, some (clampCoord (d.x + 600)), some (clampCoord (d.y + 600)), false⟩,
      ⟨true, some (clampCoord (d.x - 600)), some (clampCoord (d.y - 600)), true⟩,
      ⟨true, some (clampCoord (d.x - 600)), some (clampCoord (d.y - 600)), false⟩,
      ⟨true, some (clampCoord (d.x + 600)), some (clampCoord (d.y - 600)), true⟩,
      ⟨true, some (clampCoord (d.x + 600)), some (clampCoord (d.y - 600)), false⟩,
      ⟨true, some (clampCoord (d.x - 600)), some (clampCoord (d.y + 600)), true⟩,
      ⟨true, some (clampCoord (d.x - 600)), some (clampCoord (d.y + 600)), false⟩,
      ⟨false, none, none, true⟩,
      ⟨false, none, none, false⟩] := by
  unfold get_possible_moves
  rw [hd]
  rfl

theorem clampCoord_bounds (v : Int) : 0 ≤ clampCoord v ∧ clampCoord v ≤ 10000 := by
  unfold clampCoord
  omega

theorem get_possible_moves_none {s : GameState} (h : s.my_drones = []) :
    get_possible_moves s = none := by
  unfold get_possible_moves
  rw [h]
  rfl

theorem get_possible_moves_ready {s : GameState} {l : List Move} {m : Move}
    (h : get_possible_moves s = some l) (hm : m ∈ l) : MoveReady m := by
  obtain ⟨d, hd⟩ : ∃ d, s.my_drones.head? = some d := by
    cases hd : s.my_drones.head? with
    | none =>
      unfold get_possible_moves at h
      rw [hd] at h
      simp at h
    | some d => exact ⟨d, rfl⟩
  rw [get_possible_moves_eq hd] at h
  obtain rfl := Option.some.inj h
  intro hsm
  fin_cases hm <;> simp_all [MoveReady]

/-! ### Lemmas: the Evaluator -/

theorem sumDistTo_total (ops : FloatOps) (dr : Drone) (scans : List (Int × Int)) :
    ∀ {cs : List Creature}, (∀ c ∈ cs, c.x.isSome = true ∧ c.y.isSome = true) →
      ∃ q, sumDistTo ops dr scans cs = some q
  | [], _ => ⟨0, rfl⟩
  | c :: cs, h => by
    obtain ⟨q, hq⟩ := @sumDistTo_total ops dr scans cs
      (fun x hx => h x (List.mem_cons_of_mem c hx))
    obtain ⟨hx, hy⟩ := h c (List.mem_cons_self c cs)
    rw [Option.isSome_iff_exists] at hx hy
    obtain ⟨cx, hx⟩ := hx; obtain ⟨cy, hy⟩ := hy
    cases hws : scansContains scans dr.id c.id with
    | false =>
      exact ⟨ops.sqrtF (((dr.x : ℚ) - (cx : ℚ)) * ((dr.x : ℚ) - (cx : ℚ)) +
          ((dr.y : ℚ) - (cy : ℚ)) * ((dr.y : ℚ) - (cy : ℚ))) + q,
        by simp [sumDistTo, hq, hws, hx, hy]⟩
    | true => exact ⟨q, by simp [sumDistTo, hq, hws, hx, hy]⟩

/-- Anatomy of a successful `evaluate`, including its value. -/
theorem evaluate_some_elim {ops : FloatOps} {s : GameState} {q : ℚ}
    (h : evaluate ops s = some q) :
    ∃ d0 q1 e0 q2,
      s.my_drones.head? = some d0 ∧
      sumDistTo ops d0 s.scans s.creatures = some q1 ∧
      s.their_drones.head? = some e0 ∧
      sumDistTo ops e0 s.scans s.creatures = some q2 ∧
      q = (s.my_score : ℚ) * 100000 - (s.foe_score : ℚ) * 100000
        + (if s.was_all_colors_achieved then (500 : ℚ) else 0)
        + (if s.was_1_of_each_achieved then (500 : ℚ) else 0)
        - emphasize_value ops (q1 / (s.creatures.length : ℚ))
        + emphasize_value ops (q2 / (s.creatures.length : ℚ)) := by
  unfold evaluate at h
  simp only [Option.bind_eq_bind, Option.bind_eq_some, Option.some.injEq] at h
  obtain ⟨d0, hd0, q1, hq1, e0, he0, q2, hq2, hval⟩ := h
  exact ⟨d0, q1, e0, q2, hd0, hq1, he0, hq2, hval.symm⟩

/-- Conversely, assemble a successful `evaluate`. -/
theorem evaluate_some_intro {ops : FloatOps} {s : GameState} {d0 e0 : Drone} {q1 q2 : ℚ}
    (hd0 : s.my_drones.head? = some d0)
    (hq1 : sumDistTo ops d0 s.scans s.creatures = some q1)
    (he0 : s.their_drones.head? = some e0)
    (hq2 : sumDistTo ops e0 s.scans s.creatures = some q2) :
    evaluate ops s = some ((s.my_score : ℚ) * 100000 - (s.foe_score : ℚ) * 100000
      + (if s.was_all_colors_achieved then (500 : ℚ) else 0)
      + (if s.was_1_of_each_achieved then (500 : ℚ) else 0)
      - emphasize_value ops (q1 / (s.creatures.length : ℚ))
      + emphasize_value ops (q2 / (s.creatures.length : ℚ))) := by
  unfold evaluate
  simp only [Option.bind_eq_bind, hd0, hq1, he0, hq2, Option.some_bind]

theorem evaluate_total (ops : FloatOps) {s : GameState} (hs : StateReady s) :
    ∃ q, evaluate ops s = some q := by
  obtain ⟨hmy, hth, hk⟩ := hs
  obtain ⟨d0, tl, hmys⟩ : ∃ d0 tl, s.my_drones = d0 :: tl := by
    cases hmd : s.my_drones with
    | nil => exact absurd hmd hmy
    | cons a b => exact ⟨a, b, rfl⟩
  obtain ⟨e0, tl2, hthys⟩ : ∃ e0 tl2, s.their_drones = e0 :: tl2 := by
    cases hmd : s.their_drones with
    | nil => exact absurd hmd hth
    | cons a b => exact ⟨a, b, rfl⟩
  obtain ⟨q1, hq1⟩ := @sumDistTo_total ops d0 s.scans s.creatures
    (fun c hc => ⟨(hk c hc).1, (hk c hc).2.1⟩)
  obtain ⟨q2, hq2⟩ := @sumDistTo_total ops e0 s.scans s.creatures
    (fun c hc => ⟨(hk c hc).1, (hk c hc).2.1⟩)
  exact ⟨_, evaluate_some_intro (by rw [hmys]; rfl) hq1 (by rw [hthys]; rfl) hq2⟩

theorem evaluate_none_of_no_my (ops : FloatOps) {s : GameState}
    (h : s.my_drones = []) : evaluate ops s = none := by
  cases he : evaluate ops s with
  | none => rfl
  | some q =>
    obtain ⟨d0, q1, e0, q2, hd0, _⟩ := evaluate_some_elim he
    rw [h] at hd0
    simp at hd0

theorem evaluate_none_of_no_their (ops : FloatOps) {s : GameState}
    (h : s.their_drones = []) : evaluate ops s = none := by
  cases he : evaluate ops s with
  | none => rfl
  | some q =>
    obtain ⟨d0, q1, e0, q2, _, _, he0, _⟩ := evaluate_some_elim he
    rw [h] at he0
    simp at he0

/-! ### Lemmas: saturated states -/

theorem forall₂_mem_right {R : Creature → Creature → Prop} :
    ∀ {cs cs' : List Creature}, List.Forall₂ R cs cs' →
      ∀ c' ∈ cs', ∃ c ∈ cs, R c c' := by
  intro cs cs' h
  induction h with
  | nil => simp
  | cons hr _ ih =>
    intro c' hc'
    rcases List.mem_cons.1 hc' with rfl | h'
    · exact ⟨_, List.mem_cons_self _ _, hr⟩
    · obtain ⟨c, hc, hRc⟩ := ih c' h'
      exact ⟨c, List.mem_cons_of_mem _ hc, hRc⟩

theorem sat_sumDist (ops : FloatOps) (dr : Drone) (scans : List (Int × Int)) :
    ∀ {cs : List Creature}, (∀ c ∈ cs, (dr.id, c.id) ∈ scans) →
      sumDistTo ops dr scans cs = some 0
  | [], _ => rfl
  | c :: cs, h => by
    have hrest := @sat_sumDist ops dr scans cs
      (fun x hx => h x (List.mem_cons_of_mem c hx))
    have hc : scansContains scans dr.id c.id = true :=
      decide_eq_true (h c (List.mem_cons_self c cs))
    simp [sumDistTo, hrest, hc]

theorem sat_evaluate (ops : FloatOps) {s : GameState} (hsat : Saturated s) :
    evaluate ops s = some (satScore s) := by
  obtain ⟨⟨hmy, hth, hk⟩, hscan⟩ := hsat
  obtain ⟨d0, tl, hmys⟩ : ∃ d0 tl, s.my_drones = d0 :: tl := by
    cases hmd : s.my_drones with
    | nil => exact absurd hmd hmy
    | cons a b => exact ⟨a, b, rfl⟩
  obtain ⟨e0, tl2, hthys⟩ : ∃ e0 tl2, s.their_drones = e0 :: tl2 := by
    cases hmd : s.their_drones with
    | nil => exact absurd hmd hth
    | cons a b => exact ⟨a, b, rfl⟩
  have hd0 : s.my_drones.head? = some d0 := by rw [hmys]; rfl
  have he0 : s.their_drones.head? = some e0 := by rw [hthys]; rfl
  have h1 : sumDistTo ops d0 s.scans s.creatures = some 0 :=
    sat_sumDist ops d0 s.scans (fun c hc => (hscan c hc).1 d0 hd0)
  have h2 : sumDistTo ops e0 s.scans s.creatures = some 0 :=
    sat_sumDist ops e0 s.scans (fun c hc => (hscan c hc).2 e0 he0)
  rw [evaluate_some_intro hd0 h1 he0 h2]
  congr 1
  unfold satScore
  ring

theorem sat_detect_nil (dr : Drone) (light : Bool) (scans : List (Int × Int))
    (droneId : Int) :
    ∀ {cs : List Creature},
      (∀ c ∈ cs, (∃ cx, c.x = some cx) ∧ (∃ cy, c.y = some cy) ∧ (droneId, c.id) ∈ scans) →
      detectScans dr light scans droneId cs = some []
  | [], _ => rfl
  | c :: cs, h => by
    obtain ⟨⟨cx, hx⟩, ⟨cy, hy⟩, hmem⟩ := h c (List.mem_cons_self c cs)
    have hrest := @sat_detect_nil dr light scans droneId cs
      (fun x hx => h x (List.mem_cons_of_mem c hx))
    have hc : scansContains scans droneId c.id = true := decide_eq_true hmem
    simp [detectScans, scanCheck_eq dr light scans droneId hx hy, hc, hrest]

theorem sat_apply (ops : FloatOps) {s : GameState} {m : Move}
    (hsat : Saturated s) (hm : MoveReady m) :
    ∃ s', apply_moves ops s m = some s' ∧ Saturated s' ∧
      satScore s' = satScore s := by
  obtain ⟨⟨hmy, hth, hk⟩, hscan⟩ := hsat
  obtain ⟨cs1, hc1⟩ := stepCreatures_total hk
  obtain ⟨d0, tl, hmys⟩ : ∃ d0 tl, s.my_drones = d0 :: tl := by
    cases hmd : s.my_drones with
    | nil => exact absurd hmd hmy
    | cons a b => exact ⟨a, b, rfl⟩
  have hd0 : s.my_drones.head? = some d0 := by rw [hmys]; rfl
  have hk1 : ∀ c ∈ cs1, CreatureKnown c := stepCreatures_known hc1 hk
  have hcorr := stepCreatures_forall₂ hc1
  have hmem1 : ∀ c' ∈ cs1, (d0.id, c'.id) ∈ s.scans := by
    intro c' hc'
    obtain ⟨c, hc, hR⟩ := forall₂_mem_right hcorr c' hc'
    rw [hR.1]
    exact (hscan c hc).1 d0 hd0
  have hbranch : ∃ drone1, ((m.should_move = true ∧ ∃ tx ty, m.x = some tx ∧ m.y = some ty ∧
      drone1 = moveDrone ops d0 tx ty) ∨
      (m.should_move = false ∧ drone1 = { d0 with y := d0.y + 300 })) := by
    cases hsm : m.should_move with
    | true =>
      obtain ⟨hx, hy⟩ := hm hsm
      rw [Option.isSome_iff_exists] at hx hy
      obtain ⟨tx, htx⟩ := hx; obtain ⟨ty, hty⟩ := hy
      exact ⟨moveDrone ops d0 tx ty, Or.inl ⟨rfl, tx, ty, htx, hty, rfl⟩⟩
    | false => exact ⟨_, Or.inr ⟨rfl, rfl⟩⟩
  obtain ⟨drone1, hd1⟩ := hbranch
  have hdid : drone1.id = d0.id := by
    rcases hd1 with ⟨_, tx, ty, _, _, rfl⟩ | ⟨_, rfl⟩ <;> rfl
  have hdet : detectScans (battUpd m.light drone1) m.light s.scans d0.id cs1 = some [] :=
    sat_detect_nil _ _ _ _ (fun c hc =>
      ⟨Option.isSome_iff_exists.1 (hk1 c hc).1, Option.isSome_iff_exists.1 (hk1 c hc).2.1,
        hmem1 c hc⟩)
  refine ⟨_, apply_moves_some_intro hc1 hd0 hd1 hdet rfl, ?_, ?_⟩
  · refine ⟨⟨by simp, hth, fun c hc => hk1 c hc⟩, ?_⟩
    intro c' hc'
    constructor
    · intro d hd
      obtain rfl : battUpd m.light drone1 = d := by simpa using hd
      rw [show (battUpd m.light drone1).id = d0.id from hdid]
      exact hmem1 c' hc'
    · intro d hd
      obtain ⟨c, hc, hR⟩ := forall₂_mem_right hcorr c' hc'
      rw [hR.1]
      exact (hscan c hc).2 d hd
  · rfl

theorem plainScores_const (ops : FloatOps) (f : GameState → Option ℚ)
    (s : GameState) (e : ℚ) :
    ∀ {L : List Move}, (∀ mv ∈ L, ∃ s', apply_moves ops s mv = some s' ∧ f s' = some e) →
      plainScores ops f s L = some (L.map fun _ => e)
  | [], _ => rfl
  | mv :: ms, h => by
    obtain ⟨s', happ, hf⟩ := h mv (List.mem_cons_self _ _)
    have hrest := plainScores_const ops f s e (L := ms)
      (fun x hx => h x (List.mem_cons_of_mem _ hx))
    simp [plainScores, happ, hf, hrest]

theorem foldl_max_const (e : ℚ) : ∀ (l : List Move), (l.map fun _ => e).foldl max e = e
  | [] => rfl
  | _ :: ms => by
    rw [List.map_cons, List.foldl_cons, max_self]
    exact foldl_max_const e ms

theorem foldl_min_const (e : ℚ) : ∀ (l : List Move), (l.map fun _ => e).foldl min e = e
  | [] => rfl
  | _ :: ms => by
    rw [List.map_cons, List.foldl_cons, min_self]
    exact foldl_min_const e ms

theorem sat_plain (ops : FloatOps) :
    ∀ (d : Nat) {s : GameState} (p : Bool), Saturated s →
      plainMinimax ops d s p = some (satScore s)
  | 0, s, p, hsat => sat_evaluate ops hsat
  | d + 1, s, p, hsat => by
    obtain ⟨d0, tl, hmys⟩ : ∃ d0 tl, s.my_drones = d0 :: tl := by
      cases hmd : s.my_drones with
      | nil => exact absurd hmd hsat.1.1
      | cons a b => exact ⟨a, b, rfl⟩
    have hd0 : s.my_drones.head? = some d0 := by rw [hmys]; rfl
    have hgpm := get_possible_moves_eq hd0
    have hsc : plainScores ops (fun s' => plainMinimax ops d s' (!p)) s _ =
        some (List.map (fun _ => satScore s) _) :=
      plainScores_const ops _ s (satScore s) (L := _) (fun mv hmv => by
        obtain ⟨s', happ, hsat', hscore⟩ :=
          sat_apply ops hsat (get_possible_moves_ready hgpm hmv)
        exact ⟨s', happ, by rw [sat_plain ops d (!p) hsat', hscore]⟩)
    have heq : plainMinimax ops (d+1) s p = (do
        let moves ← get_possible_moves s
        let scores ← plainScores ops (fun s' => plainMinimax ops d s' (!p)) s moves
        if p then listMaxQ scores else listMinQ scores) := rfl
    rw [heq, hgpm]
    simp only [Option.bind_eq_bind, Option.some_bind, hsc]
    cases p <;> simp [listMaxQ, listMinQ, foldl_max_const, foldl_min_const]


/-! ### Lemmas: alpha-beta versus unpruned minimax (Knuth-Moore) -/

theorem foldl_max_shift : ∀ (l : List ℚ) (a x : ℚ),
    l.foldl max (max a x) = max a (l.foldl max x)
  | [], _, _ => rfl
  | y :: ys, a, x => by
    rw [List.foldl_cons, List.foldl_cons, max_assoc, foldl_max_shift ys a (max x y)]

theorem le_foldl_max : ∀ (l : List ℚ) (a : ℚ), a ≤ l.foldl max a
  | [], a => le_refl a
  | y :: ys, a => le_trans (le_max_left a y) (le_foldl_max ys (max a y))

theorem foldl_min_shift : ∀ (l : List ℚ) (a x : ℚ),
    l.foldl min (min a x) = min a (l.foldl min x)
  | [], _, _ => rfl
  | y :: ys, a, x => by
    rw [List.foldl_cons, List.foldl_cons, min_assoc, foldl_min_shift ys a (min x y)]

theorem foldl_min_le : ∀ (l : List ℚ) (a : ℚ), l.foldl min a ≤ a
  | [], a => le_refl a
  | y :: ys, a => le_trans (foldl_min_le ys (min a y)) (min_le_left a y)

theorem plainScores_cons_elim {ops : FloatOps} {f : GameState → Option ℚ}
    {s : GameState} {mv : Move} {ms : List Move} {vs : List ℚ}
    (h : plainScores ops f s (mv :: ms) = some vs) :
    ∃ s' v rest, apply_moves ops s mv = some s' ∧ f s' = some v ∧
      plainScores ops f s ms = some rest ∧ vs = v :: rest := by
  simp only [plainScores, Option.bind_eq_bind, Option.bind_eq_some,
    Option.some.injEq] at h
  obtain ⟨s', hs', v, hv, rest, hrest, heq⟩ := h
  exact ⟨s', v, rest, hs', hv, hrest, heq.symm⟩

/-- Maximizing-loop invariant of the Knuth-Moore argument: while the
running maximum stays below `beta` the loop computes exactly the fold
of `max` over the children's true values, and once it reaches `beta`
the loop breaks with a value at least `beta`. -/
theorem abMaxLoop_km (ops : FloatOps) (d : Nat) {s : GameState} (β : ℚ)
    (hs : StateReady s)
    (IH : ∀ {s' : GameState} {α' v' : ℚ}, StateReady s' → α' < β →
      plainMinimax ops d s' false = some v' →
      ∃ g, minimax ops d s' α' β false = some g ∧
        (v' ≤ α' → g ≤ α') ∧ (α' < v' → v' < β → g = v') ∧ (β ≤ v' → β ≤ g)) :
    ∀ {L : List Move} {vs : List ℚ} {α : ℚ}, α < β →
      plainScores ops (fun s' => plainMinimax ops d s' false) s L = some vs →
      ∃ g, abMaxLoop ops (fun s' a b => minimax ops d s' a b false) s β L α = some g ∧
        (vs.foldl max α < β → g = vs.foldl max α) ∧
        (β ≤ vs.foldl max α → β ≤ g)
  | [], vs, α, hαβ, hps => by
    simp only [plainScores, Option.some.injEq] at hps
    subst hps
    exact ⟨α, rfl, fun _ => rfl,
      fun h => absurd (lt_of_le_of_lt h hαβ) (lt_irrefl β)⟩
  | mv :: ms, vs, α, hαβ, hps => by
    obtain ⟨s', v0, rest, happ, hv0, hrest, rfl⟩ := plainScores_cons_elim hps
    have hs' := apply_moves_ready hs happ
    obtain ⟨g0, hg0, hp1, hp2, hp3⟩ := IH hs' hαβ hv0
    have hloop : abMaxLoop ops (fun s' a b => minimax ops d s' a b false) s β (mv :: ms) α =
        (if β ≤ max α g0 then some (max α g0)
         else abMaxLoop ops (fun s' a b => minimax ops d s' a b false) s β ms (max α g0)) := by
      simp [abMaxLoop, happ, hg0]
    rw [List.foldl_cons]
    by_cases hbr : β ≤ max α g0
    · rw [hloop, if_pos hbr]
      have hβg0 : β ≤ g0 := by
        rcases le_max_iff.1 hbr with h | h
        · exact absurd (lt_of_le_of_lt h hαβ) (lt_irrefl β)
        · exact h
      have hβv0 : β ≤ v0 := by
        by_contra hv0β
        push_neg at hv0β
        by_cases hv0α : v0 ≤ α
        · exact absurd (lt_of_le_of_lt hβg0 (lt_of_le_of_lt (hp1 hv0α) hαβ)) (lt_irrefl β)
        · push_neg at hv0α
          rw [hp2 hv0α hv0β] at hβg0
          exact absurd (lt_of_le_of_lt hβg0 hv0β) (lt_irrefl β)
      refine ⟨max α g0, rfl, fun hV => ?_, fun _ => hbr⟩
      exact absurd (lt_of_le_of_lt
        (le_trans (le_trans hβv0 (le_max_right α v0)) (le_foldl_max rest (max α v0))) hV)
        (lt_irrefl β)
    · push_neg at hbr
      have heqm : max α g0 = max α v0 := by
        by_cases hv0α : v0 ≤ α
        · rw [max_eq_left (hp1 hv0α), max_eq_left hv0α]
        · push_neg at hv0α
          by_cases hv0β : v0 < β
          · rw [hp2 hv0α hv0β]
          · push_neg at hv0β
            exact absurd (lt_of_le_of_lt (le_trans (hp3 hv0β) (le_max_right α g0)) hbr)
              (lt_irrefl β)
      rw [hloop, if_neg (not_le.2 hbr), heqm]
      exact abMaxLoop_km ops d β hs IH (by rw [← heqm]; exact hbr) hrest

/-- Minimizing-loop invariant, dual to `abMaxLoop_km`. -/
theorem abMinLoop_km (ops : FloatOps) (d : Nat) {s : GameState} (α : ℚ)
    (hs : StateReady s)
    (IH : ∀ {s' : GameState} {β' v' : ℚ}, StateReady s' → α < β' →
      plainMinimax ops d s' true = some v' →
      ∃ g, minimax ops d s' α β' true = some g ∧
        (v' ≤ α → g ≤ α) ∧ (α < v' → v' < β' → g = v') ∧ (β' ≤ v' → β' ≤ g)) :
    ∀ {L : List Move} {vs : List ℚ} {β : ℚ}, α < β →
      plainScores ops (fun s' => plainMinimax ops d s' true) s L = some vs →
      ∃ g, abMinLoop ops (fun s' a b => minimax ops d s' a b true) s α L β = some g ∧
        (α < vs.foldl min β → g = vs.foldl min β) ∧
        (vs.foldl min β ≤ α → g ≤ α)
  | [], vs, β, hαβ, hps => by
    simp only [plainScores, Option.some.injEq] at hps
    subst hps
    exact ⟨β, rfl, fun _ => rfl,
      fun h => absurd (lt_of_lt_of_le hαβ h) (lt_irrefl α)⟩
  | mv :: ms, vs, β, hαβ, hps => by
    obtain ⟨s', v0, rest, happ, hv0, hrest, rfl⟩ := plainScores_cons_elim hps
    have hs' := apply_moves_ready hs happ
    obtain ⟨g0, hg0, hp1, hp2, hp3⟩ := IH hs' hαβ hv0
    have hloop : abMinLoop ops (fun s' a b => minimax ops d s' a b true) s α (mv :: ms) β =
        (if min β g0 ≤ α then some (min β g0)
         else abMinLoop ops (fun s' a b => minimax ops d s' a b true) s α ms (min β g0)) := by
      simp [abMinLoop, happ, hg0]
    rw [List.foldl_cons]
    by_cases hbr : min β g0 ≤ α
    · rw [hloop, if_pos hbr]
      have hg0α : g0 ≤ α := by
        rcases min_le_iff.1 hbr with h | h
        · exact absurd (lt_of_le_of_lt h hαβ) (lt_irrefl β)
        · exact h
      have hv0α : v0 ≤ α := by
        by_contra h'
        push_neg at h'
        by_cases hv0β : v0 < β
        · rw [hp2 h' hv0β] at hg0α
          exact absurd (lt_of_lt_of_le h' hg0α) (lt_irrefl α)
        · push_neg at hv0β
          exact absurd (lt_of_le_of_lt (le_trans (hp3 hv0β) hg0α) hαβ) (lt_irrefl β)
      refine ⟨min β g0, rfl, fun hV => ?_, fun _ => hbr⟩
      exact absurd (lt_of_lt_of_le hV
        (le_trans (foldl_min_le rest (min β v0)) (le_trans (min_le_right β v0) hv0α)))
        (lt_irrefl α)
    · push_neg at hbr
      have heqm : min β g0 = min β v0 := by
        by_cases hv0β : β ≤ v0
        · rw [min_eq_left (hp3 hv0β), min_eq_left hv0β]
        · push_neg at hv0β
          by_cases hv0α : α < v0
          · rw [hp2 hv0α hv0β]
          · push_neg at hv0α
            exact absurd (lt_of_lt_of_le hbr (le_trans (min_le_right β g0) (hp1 hv0α)))
              (lt_irrefl α)
      rw [hloop, if_neg (not_le.2 hbr), heqm]
      exact abMinLoop_km ops d α hs IH (by rw [← heqm]; exact hbr) hrest

/-- Knuth-Moore correctness bounds for the game's alpha-beta search:
at any window `alpha < beta`, if the unpruned minimax value of the
position is `v` then the alpha-beta value `g` exists and satisfies
fail-hard bounds, with exact agreement when `v` lies strictly inside
the window. -/
theorem minimax_km (ops : FloatOps) :
    ∀ (d : Nat) {s : GameState} {p : Bool} {α β v : ℚ},
      StateReady s → α < β → plainMinimax ops d s p = some v →
      ∃ g, minimax ops d s α β p = some g ∧
        (v ≤ α → g ≤ α) ∧ (α < v → v < β → g = v) ∧ (β ≤ v → β ≤ g)
  | 0, s, p, α, β, v, _, _, hplain =>
    ⟨v, hplain, fun h => h, fun _ _ => rfl, fun h => h⟩
  | d + 1, s, p, α, β, v, hs, hαβ, hplain => by
    cases p with
    | true =>
      have heqp : plainMinimax ops (d+1) s true = (do
          let moves ← get_possible_moves s
          let scores ← plainScores ops (fun s' => plainMinimax ops d s' false) s moves
          listMaxQ scores) := rfl
      rw [heqp] at hplain
      rcases hgpm : get_possible_moves s with _ | L
      · rw [hgpm] at hplain; simp at hplain
      · rw [hgpm] at hplain
        simp only [Option.bind_eq_bind, Option.some_bind] at hplain
        rcases hps : plainScores ops (fun s' => plainMinimax ops d s' false) s L with _ | vs
        · rw [hps] at hplain; simp at hplain
        · rw [hps] at hplain
          simp only [Option.some_bind] at hplain
          cases vs with
          | nil => simp [listMaxQ] at hplain
          | cons v1 rest =>
            have hv : v = rest.foldl max v1 := by
              simpa [listMaxQ] using hplain.symm
            obtain ⟨g, hloop, hq1, hq2⟩ := abMaxLoop_km ops d β hs
              (fun {s' α' v'} hs' hα' hp' => minimax_km ops d hs' hα' hp') hαβ hps
            have hVeq : (v1 :: rest).foldl max α = max α v := by
              rw [List.foldl_cons, foldl_max_shift, hv]
            rw [hVeq] at hq1 hq2
            have hmm : minimax ops (d+1) s α β true =
                abMaxLoop ops (fun s' a b => minimax ops d s' a b false) s β L α := by
              have h0 : minimax ops (d+1) s α β true = (do
                  let moves ← get_possible_moves s
                  abMaxLoop ops (fun s' a b => minimax ops d s' a b false) s β moves α) := rfl
              rw [h0, hgpm]; rfl
            refine ⟨g, by rw [hmm]; exact hloop, ?_, ?_, ?_⟩
            · intro hvα
              rw [max_eq_left hvα] at hq1
              exact le_of_eq (hq1 hαβ)
            · intro hαv hvβ
              rw [max_eq_right (le_of_lt hαv)] at hq1
              exact hq1 hvβ
            · intro hβv
              exact hq2 (le_trans hβv (le_max_right α v))
    | false =>
      have heqp : plainMinimax ops (d+1) s false = (do
          let moves ← get_possible_moves s
          let scores ← plainScores ops (fun s' => plainMinimax ops d s' true) s moves
          listMinQ scores) := rfl
      rw [heqp] at hplain
      rcases hgpm : get_possible_moves s with _ | L
      · rw [hgpm] at hplain; simp at hplain
      · rw [hgpm] at hplain
        simp only [Option.bind_eq_bind, Option.some_bind] at hplain
        rcases hps : plainScores ops (fun s' => plainMinimax ops d s' true) s L with _ | vs
        · rw [hps] at hplain; simp at hplain
        · rw [hps] at hplain
          simp only [Option.some_bind] at hplain
          cases vs with
          | nil => simp [listMinQ] at hplain
          | cons v1 rest =>
            have hv : v = rest.foldl min v1 := by
              simpa [listMinQ] using hplain.symm
            obtain ⟨g, hloop, hq1, hq2⟩ := abMinLoop_km ops d α hs
              (fun {s' β' v'} hs' hβ' hp' => minimax_km ops d hs' hβ' hp') hαβ hps
            have hVeq : (v1 :: rest).foldl min β = min β v := by
              rw [List.foldl_cons, foldl_min_shift, hv]
            rw [hVeq] at hq1 hq2
            have hmm : minimax ops (d+1) s α β false =
                abMinLoop ops (fun s' a b => minimax ops d s' a b true) s α L β := by
              have h0 : minimax ops (d+1) s α β false = (do
                  let moves ← get_possible_moves s
                  abMinLoop ops (fun s' a b => minimax ops d s' a b true) s α moves β) := rfl
              rw [h0, hgpm]; rfl
            refine ⟨g, by rw [hmm]; exact hloop, ?_, ?_, ?_⟩
            · intro hvα
              exact hq2 (le_trans (min_le_right β v) hvα)
            · intro hαv hvβ
              rw [min_eq_right (le_of_lt hvβ)] at hq1
              exact hq1 hαv
            · intro hβv
              rw [min_eq_left hβv] at hq1
              exact le_of_eq (hq1 hαβ).symm

/-- Exact agreement of pruned and unpruned search when the unpruned
value lies strictly inside the alpha-beta window. -/
theorem minimax_eq_of_inside (ops : FloatOps) (d : Nat) {s : GameState} {p : Bool}
    {α β v : ℚ} (hs : StateReady s) (hαβ : α < β)
    (hplain : plainMinimax ops d s p = some v) (hαv : α < v) (hvβ : v < β) :
    minimax ops d s α β p = some v := by
  obtain ⟨g, hg, _, h2, _⟩ := minimax_km ops d hs hαβ hplain
  rw [hg, h2 hαv hvβ]

/-- Exact fail-hard value of a maximizing root whose true value stays
below `beta` after clamping at `alpha`. -/
theorem minimax_top_eq (ops : FloatOps) (d : Nat) {s : GameState} {α β v : ℚ}
    (hs : StateReady s) (hαβ : α < β)
    (hplain : plainMinimax ops (d+1) s true = some v) (hV : max α v < β) :
    minimax ops (d+1) s α β true = some (max α v) := by
  have heqp : plainMinimax ops (d+1) s true = (do
      let moves ← get_possible_moves s
      let scores ← plainScores ops (fun s' => plainMinimax ops d s' false) s moves
      listMaxQ scores) := rfl
  rw [heqp] at hplain
  rcases hgpm : get_possible_moves s with _ | L
  · rw [hgpm] at hplain; simp at hplain
  · rw [hgpm] at hplain
    simp only [Option.bind_eq_bind, Option.some_bind] at hplain
    rcases hps : plainScores ops (fun s' => plainMinimax ops d s' false) s L with _ | vs
    · rw [hps] at hplain; simp at hplain
    · rw [hps] at hplain
      simp only [Option.some_bind] at hplain
      cases vs with
      | nil => simp [listMaxQ] at hplain
      | cons v1 rest =>
        have hv : v = rest.foldl max v1 := by
          simpa [listMaxQ] using hplain.symm
        obtain ⟨g, hloop, hq1, _⟩ := abMaxLoop_km ops d β hs
          (fun {s' α' v'} hs' hα' hp' => minimax_km ops d hs' hα' hp') hαβ hps
        have hVeq : (v1 :: rest).foldl max α = max α v := by
          rw [List.foldl_cons, foldl_max_shift, hv]
        rw [hVeq] at hq1
        have hmm : minimax ops (d+1) s α β true =
            abMaxLoop ops (fun s' a b => minimax ops d s' a b false) s β L α := by
          have h0 : minimax ops (d+1) s α β true = (do
              let moves ← get_possible_moves s
              abMaxLoop ops (fun s' a b => minimax ops d s' a b false) s β moves α) := rfl
          rw [h0, hgpm]; rfl
        rw [hmm, hloop, hq1 hV]

/-! ### Lemmas: the Move Selector -/

theorem sat_rootScore_le (ops : FloatOps) {s : GameState} {mv : Move}
    (hsat : Saturated s) (hle : satScore s ≤ -2147483648) (hmv : MoveReady mv) :
    ∃ g, rootScore ops s mv = some g ∧ g ≤ -2147483648 := by
  obtain ⟨s', happ, hsat', hscore⟩ := sat_apply ops hsat hmv
  have hplain : plainMinimax ops 3 s' true = some (satScore s) := by
    rw [sat_plain ops 3 true hsat', hscore]
  obtain ⟨g, hmm, hp1, _, _⟩ := minimax_km ops 3 (α := -2147483648) (β := 2147483647)
    hsat'.1 (by norm_num) hplain
  refine ⟨g, ?_, hp1 hle⟩
  unfold rootScore
  rw [happ]
  simpa using hmm

theorem sat_rootScore_eq (ops : FloatOps) {s : GameState} {mv : Move}
    (hsat : Saturated s) (hgt : (-2147483648 : ℚ) < satScore s)
    (hlt : satScore s < 2147483647) (hmv : MoveReady mv) :
    rootScore ops s mv = some (satScore s) := by
  obtain ⟨s', happ, hsat', hscore⟩ := sat_apply ops hsat hmv
  have hplain : plainMinimax ops 3 s' true = some (satScore s) := by
    rw [sat_plain ops 3 true hsat', hscore]
  have hmm := minimax_eq_of_inside ops 3 hsat'.1 (by norm_num) hplain hgt hlt
  unfold rootScore
  rw [happ]
  simpa using hmm

theorem bestGo_le (ops : FloatOps) {s : GameState} :
    ∀ {L : List Move} {best : Option Move} {bs : ℚ},
      (∀ mv ∈ L, ∃ g, rootScore ops s mv = some g ∧ g ≤ bs) →
      bestGo ops s L best bs = some best
  | [], _, _, _ => rfl
  | mv :: ms, best, bs, h => by
    obtain ⟨g, hg, hle⟩ := h mv (List.mem_cons_self _ _)
    have hrest := @bestGo_le ops _ ms best bs
      (fun x hx => h x (List.mem_cons_of_mem _ hx))
    simp [bestGo, hg, hrest, not_lt.2 hle]

/-- The root loop computes the first-seen candidate attaining the
maximum score, provided that maximum strictly exceeds the running
best; otherwise the incoming `best` survives. -/
theorem bestGo_spec (ops : FloatOps) {s : GameState} (f : Move → ℚ) :
    ∀ (L : List Move) (best : Option Move) (bs : ℚ),
      (∀ mv ∈ L, rootScore ops s mv = some (f mv)) →
      bestGo ops s L best bs = some (
        if bs < (L.map f).foldl max bs then
          L.find? (fun mv => decide (f mv = (L.map f).foldl max bs))
        else best)
  | [], best, bs, _ => by simp [bestGo]
  | mv :: ms, best, bs, h => by
    have hsc := h mv (List.mem_cons_self _ _)
    have hfold : ((mv :: ms).map f).foldl max bs = (ms.map f).foldl max (max bs (f mv)) := by
      simp [List.foldl_cons]
    by_cases hlt : bs < f mv
    · have hstep : bestGo ops s (mv :: ms) best bs = bestGo ops s ms (some mv) (f mv) := by
        simp [bestGo, hsc, hlt]
      rw [hstep, bestGo_spec ops f ms (some mv) (f mv)
        (fun x hx => h x (List.mem_cons_of_mem _ hx))]
      rw [hfold, max_eq_right (le_of_lt hlt)]
      have hM : f mv ≤ (ms.map f).foldl max (f mv) := le_foldl_max _ _
      have hbsM : bs < (ms.map f).foldl max (f mv) := lt_of_lt_of_le hlt hM
      rw [if_pos hbsM]
      congr 1
      rcases eq_or_lt_of_le hM with heq | hlt2
      · rw [if_neg (not_lt.2 (le_of_eq heq.symm)), List.find?_cons]
        simp [decide_eq_true heq]
      · rw [if_pos hlt2, List.find?_cons]
        simp [ne_of_lt hlt2]
    · push_neg at hlt
      have hstep : bestGo ops s (mv :: ms) best bs = bestGo ops s ms best bs := by
        simp [bestGo, hsc, not_lt.2 hlt]
      rw [hstep, bestGo_spec ops f ms best bs
        (fun x hx => h x (List.mem_cons_of_mem _ hx))]
      rw [hfold, max_eq_left hlt]
      congr 1
      by_cases hbsM : bs < (ms.map f).foldl max bs
      · rw [if_pos hbsM, if_pos hbsM, List.find?_cons]
        simp [ne_of_lt (lt_of_le_of_lt hlt hbsM)]
      · rw [if_neg hbsM, if_neg hbsM]

/-- `find_best_move` equals the spec-side selector `bestSpec` whenever
every shuffled candidate's root score is defined. -/
theorem find_best_move_eq (ops : FloatOps) (shuffle : List Move → List Move)
    {s : GameState} {moves : List Move} (hgpm : get_possible_moves s = some moves)
    (f : Move → ℚ) (hf : ∀ mv ∈ shuffle moves, rootScore ops s mv = some (f mv)) :
    find_best_move ops shuffle s = some (bestSpec f (shuffle moves)) := by
  unfold find_best_move bestSpec
  rw [hgpm]
  simp only [Option.bind_eq_bind, Option.some_bind]
  rw [bestGo_spec ops f (shuffle moves) none (-2147483648) hf]

/-- `find_best_move` returns `some none` (no candidate chosen) as soon
as every root score is at most the initial threshold `i32::MIN`. -/
theorem find_best_move_none (ops : FloatOps) (shuffle : List Move → List Move)
    {s : GameState} {moves : List Move} (hgpm : get_possible_moves s = some moves)
    (h : ∀ mv ∈ shuffle moves, ∃ g, rootScore ops s mv = some g ∧ g ≤ -2147483648) :
    find_best_move ops shuffle s = some none := by
  unfold find_best_move
  rw [hgpm]
  simp only [Option.bind_eq_bind, Option.some_bind]
  exact bestGo_le ops h

/-! ### Claim theorems -/

/-- C1 (amended).  Achievement-flag semantics of the scoring step, as
the code implements it: (1) each scoring event computes exactly
`scoreScanSpec` — the three type flags flip (monotonically) exactly
when a creature of their type is scored, and only a first-of-type scan
has its base points doubled, while the +3 all-of-color and +4
one-of-each sub-bonuses (possibly zero, their conditions need not
hold) are doubled exactly when the corresponding flag was still false;
(2) no flag ever flips back; (3) the all-colors and one-of-each flags
are true after *any* event that records a new scan, regardless of
whether their conditions are satisfied. -/
theorem claim_C1_flag_semantics :
    (∀ (dr : Drone) (st : GameState) (cid : Int) (c : Creature),
      st.creatures.find? (fun cr => cr.id == cid) = some c →
      scoreScan dr st cid = some (scoreScanSpec dr st cid c)) ∧
    (∀ (ops : FloatOps) (s : GameState) (m : Move) (s' : GameState),
      apply_moves ops s m = some s' →
      (s.was_type_0_achieved = true → s'.was_type_0_achieved = true) ∧
      (s.was_type_1_achieved = true → s'.was_type_1_achieved = true) ∧
      (s.was_type_2_achieved = true → s'.was_type_2_achieved = true) ∧
      (s.was_all_colors_achieved = true → s'.was_all_colors_achieved = true) ∧
      (s.was_1_of_each_achieved = true → s'.was_1_of_each_achieved = true)) ∧
    (∀ (ops : FloatOps) (s : GameState) (m : Move) (s' : GameState),
      apply_moves ops s m = some s' → ∀ p ∈ s'.scans, p ∉ s.scans →
      s'.was_all_colors_achieved = true ∧ s'.was_1_of_each_achieved = true) := by
  refine ⟨fun dr st cid c h => scoreScan_eq dr h,
    fun ops s m s' h => apply_moves_flags_mono h,
    fun ops s m s' h p hp hnp => ?_⟩
  obtain ⟨c1, d0, d1, ids, hc1, hd0, hbr, hdet, hfold⟩ := apply_moves_some_elim h
  have hmem := scoreFold_scans_mem _ hfold p
  rw [hmem] at hp
  rcases hp with hp | ⟨cid, hcid, rfl⟩
  · exact absurd hp hnp
  · exact scoreFold_flags_set _ hfold (by rintro rfl; exact absurd hcid (List.not_mem_nil _))

/-- C1 witness: the amended theorem applied at `exState` / `waitOff`. -/
theorem claim_C1_flag_semantics_witness :
    scoreScan exMyDrone exState 10 = some (scoreScanSpec exMyDrone exState 10 exCreature) ∧
    exAfter.was_all_colors_achieved = true ∧ exAfter.was_1_of_each_achieved = true :=
  ⟨claim_C1_flag_semantics.1 exMyDrone exState 10 exCreature (by decide),
   claim_C1_flag_semantics.2.2 exOps exState waitOff exAfter (by decide) (1, 10)
     (by decide) (by decide)⟩

/-- C1 counterexample: the very first scan (creature 10, the only
creature, of color 0 / type 0) flips `was_all_colors_achieved` and
`was_1_of_each_achieved` even though neither condition holds — the
drone has not scanned all three types of color 0 (they do not exist),
nor one creature of every color for type 0. -/
theorem claim_C1_counterexample :
    apply_moves exOps exState waitOff = some exAfter ∧
    exState.was_all_colors_achieved = false ∧
    exState.was_1_of_each_achieved = false ∧
    exAfter.was_all_colors_achieved = true ∧
    exAfter.was_1_of_each_achieved = true ∧
    has_scanned_all_creatures_of_color_for exAfter 0 1 = false ∧
    has_scanned_one_of_each_for exAfter 0 1 = false := by decide

/-- C2 (amended).  The Search Driver alternates the maximizing flag
every ply and returns the Evaluator's score at depth 0, but the
Forward Simulator it calls on *both* maximizing and minimizing plies
applies my drone's move: the opponent's drones are never touched. -/
theorem claim_C2_alternation :
    (∀ (ops : FloatOps) (s : GameState) (α β : ℚ) (p : Bool),
      minimax ops 0 s α β p = evaluate ops s) ∧
    (∀ (ops : FloatOps) (s : GameState) (m : Move) (s' : GameState),
      apply_moves ops s m = some s' → s'.their_drones = s.their_drones) :=
  ⟨fun _ _ _ _ _ => rfl, fun _ _ _ _ h => apply_moves_their_drones h⟩

/-- C2 witness: the amended theorem applied at `exState` / `waitOff`. -/
theorem claim_C2_alternation_witness :
    minimax exOps 0 exState 0 1 true = evaluate exOps exState ∧
    exAfter.their_drones = exState.their_drones :=
  ⟨claim_C2_alternation.1 exOps exState 0 1 true,
   claim_C2_alternation.2 exOps exState waitOff exAfter (by decide)⟩

/-- C2 counterexample: a simulated ply (the transition used verbatim
by the minimizing branch of `minimax`) moves my drone and leaves the
opponent drone exactly in place — no ply ever applies an opponent
move. -/
theorem claim_C2_counterexample :
    apply_moves exOps exState waitOff = some exAfter ∧
    exAfter.their_drones = exState.their_drones ∧
    exAfter.my_drones ≠ exState.my_drones := by decide

/-- C4 (amended).  The Forward Simulator never fails on states whose
creatures all have known position *and velocity* (and a my-drone
exists) — but only the motion step skips creatures with unknown
position; scan detection reads every creature's position
unconditionally, so a state containing a position-less creature makes
`apply_moves` fail (see the counterexample). -/
theorem claim_C4_no_failure_on_known :
    (∀ (ops : FloatOps) (s : GameState) (m : Move), StateReady s → MoveReady m →
      ∃ s', apply_moves ops s m = some s') ∧
    (∀ c : Creature, c.x = none → c.y = none → stepCreature c = some c) :=
  ⟨fun ops s m hs hm => ⟨(apply_moves_total ops hs hm).choose,
      (apply_moves_total ops hs hm).choose_spec.1⟩,
   fun c hx hy => stepCreature_none hx hy⟩

/-- C4 witness: the amended theorem applied at `exState` / `waitOff`
and at the unknown-position creature. -/
theorem claim_C4_no_failure_on_known_witness :
    (apply_moves exOps exState waitOff).isSome = true ∧
    stepCreature unknownCreature = some unknownCreature := by
  obtain ⟨s', hs'⟩ := claim_C4_no_failure_on_known.1 exOps exState waitOff
    (by decide) (by decide)
  exact ⟨by rw [hs']; rfl,
    claim_C4_no_failure_on_known.2 unknownCreature (by decide) (by decide)⟩

/-- C4 counterexample: a state whose only creature has unknown
position (exactly the shape every creature has before first
visibility) makes `apply_moves` fail even on a plain wait action —
scan detection unwraps the missing position. -/
theorem claim_C4_counterexample :
    apply_moves exOps unknownState waitOff = none ∧
    unknownState.my_drones ≠ [] ∧
    unknownState.their_drones ≠ [] ∧
    MoveReady waitOff := by decide

/-- C7 (amended).  One Forward-Simulator step updates the acting
drone's battery to `max 0 (b - 5)` under light, `min 30 (b + 1)`
otherwise; consequently a battery already in [0, 30] stays in [0, 30]
(and hence stays there along every action sequence), but a start above
35 still exceeds 30 after one light-on step (see counterexample). -/
theorem claim_C7_battery :
    ∀ (ops : FloatOps) (s : GameState) (m : Move) (s' : GameState) (d0 : Drone),
      apply_moves ops s m = some s' → s.my_drones.head? = some d0 →
      ∃ d', s'.my_drones.head? = some d' ∧
        d'.battery = (if m.light = true then max 0 (d0.battery - 5)
          else min 30 (d0.battery + 1)) ∧
        (0 ≤ d0.battery → d0.battery ≤ 30 → 0 ≤ d'.battery ∧ d'.battery ≤ 30) := by
  intro ops s m s' d0 h hd0
  obtain ⟨c1, drone0, drone1, ids, hc1, hd0', hbr, hdet, hfold⟩ := apply_moves_some_elim h
  have hd0eq : d0 = drone0 := Option.some.inj (hd0.symm.trans hd0')
  have hmy : s'.my_drones = battUpd m.light drone1 :: s.my_drones.tail :=
    (scoreFold_frame _ hfold).2.1
  have hbatt : drone1.battery = drone0.battery := by
    rcases hbr with ⟨_, tx, ty, _, _, hdr⟩ | ⟨_, hdr⟩ <;> (rw [hdr]; try rfl)
  refine ⟨battUpd m.light drone1, by rw [hmy]; rfl, ?_, ?_⟩
  · show (if m.light = true then max 0 (drone1.battery - 5)
      else min 30 (drone1.battery + 1)) = _
    rw [hbatt, hd0eq]
  · intro h0 h30
    rw [hd0eq] at h0 h30
    show 0 ≤ (if m.light = true then max 0 (drone1.battery - 5)
        else min 30 (drone1.battery + 1)) ∧
      (if m.light = true then max 0 (drone1.battery - 5)
        else min 30 (drone1.battery + 1)) ≤ 30
    rw [hbatt]
    cases m.light <;> simp <;> omega

/-- C7 witness: the amended theorem applied at `exState` / `waitOff`
(battery 30, light off: stays at the 30 cap and within [0, 30]). -/
theorem claim_C7_battery_witness :
    exAfter.my_drones.head? = some exAfterDrone ∧
    exAfterDrone.battery = (if waitOff.light = true then max 0 (exMyDrone.battery - 5)
      else min 30 (exMyDrone.battery + 1)) ∧
    0 ≤ exAfterDrone.battery ∧ exAfterDrone.battery ≤ 30 := by
  obtain ⟨d', h1, h2, h3⟩ := claim_C7_battery exOps exState waitOff exAfter exMyDrone
    (by decide) (by decide)
  obtain rfl : d' = exAfterDrone :=
    Option.some.inj (h1.symm.trans (by decide))
  exact ⟨h1, h2, (h3 (by decide) (by decide)).1, (h3 (by decide) (by decide)).2⟩

/-- C7 counterexample: starting battery 36 and one light-on step yield
battery 31 ∉ [0, 30] — the claim's "stays within [0,30] … regardless
of starting value" fails for starting values above 35. -/
theorem claim_C7_counterexample :
    apply_moves exOps battState waitOn = some battAfter ∧
    battAfter.my_drones.head? = some battAfterDrone ∧
    battAfterDrone.battery = 31 ∧
    ¬(battAfterDrone.battery ≤ 30) := by decide

/-- C8.  For every drone position the Move Generator produces exactly
10 candidates in a fixed order — 8 move actions (the four diagonal
600-offset targets, clamped into [0,10000]², each with light on and
off) and 2 waits — and every move target lies within the arena bounds,
including for corner positions. -/
theorem claim_C8_move_generator :
    ∀ (s : GameState) (d : Drone), s.my_drones.head? = some d →
      ∃ l, get_possible_moves s = some l ∧ l.length = 10 ∧
        (l.filter (fun mv => mv.should_move)).length = 8 ∧
        (l.filter (fun mv => !mv.should_move)).length = 2 ∧
        (∀ mv ∈ l, MoveReady mv) ∧
        (∀ mv ∈ l, ∀ tx ty : Int, mv.x = some tx → mv.y = some ty →
          0 ≤ tx ∧ tx ≤ 10000 ∧ 0 ≤ ty ∧ ty ≤ 10000) := by
  intro s d hd
  refine ⟨_, get_possible_moves_eq hd, rfl, rfl, rfl,
    fun mv hmv => get_possible_moves_ready (get_possible_moves_eq hd) hmv, ?_⟩
  intro mv hmv tx ty htx hty
  fin_cases hmv <;> simp_all [clampCoord] <;> omega

/-- C8 witness: the theorem applied at a corner drone (0, 0): all four
clamped diagonal targets stay within bounds. -/
theorem claim_C8_move_generator_witness :
    get_possible_moves cornerState = some cornerMoves ∧ cornerMoves.length = 10 := by
  obtain ⟨l, h1, h2, _⟩ := claim_C8_move_generator cornerState ⟨1, 0, 0, 0, 30, true⟩
    (by decide)
  obtain rfl : l = cornerMoves := Option.some.inj (h1.symm.trans (by decide))
  exact ⟨h1, h2⟩

/-- C10.  The core operations read the first drone of the relevant
map with `unwrap`: on a state with no my-drone, `get_possible_moves`,
`apply_moves` and `evaluate` all have no result, and on a state with
no opponent drone `evaluate` has no result — a precondition stated
nowhere in the spec. -/
theorem claim_C10_empty_drones :
    ∀ (ops : FloatOps) (s : GameState) (m : Move),
      (s.my_drones = [] → get_possible_moves s = none ∧ apply_moves ops s m = none ∧
        evaluate ops s = none) ∧
      (s.their_drones = [] → evaluate ops s = none) :=
  fun ops s m =>
    ⟨fun h => ⟨get_possible_moves_none h, apply_moves_none_of_no_drone ops m h,
      evaluate_none_of_no_my ops h⟩,
     fun h => evaluate_none_of_no_their ops h⟩

/-- C10 witness: the theorem applied at the drone-less `emptyState`. -/
theorem claim_C10_empty_drones_witness :
    get_possible_moves emptyState = none ∧
    apply_moves exOps emptyState waitOff = none ∧
    evaluate exOps emptyState = none :=
  ⟨((claim_C10_empty_drones exOps emptyState waitOff).1 (by decide)).1,
   ((claim_C10_empty_drones exOps emptyState waitOff).1 (by decide)).2.1,
   (claim_C10_empty_drones exOps emptyState waitOff).2 (by decide)⟩

theorem nodup_map_id_eq : ∀ {l : List Creature}, (l.map Creature.id).Nodup →
    ∀ a ∈ l, ∀ b ∈ l, a.id = b.id → a = b
  | [], _, a, ha, _, _, _ => absurd ha (List.not_mem_nil a)
  | x :: xs, h, a, ha, b, hb, hab => by
    rw [List.map_cons, List.nodup_cons] at h
    rcases List.mem_cons.1 ha with rfl | ha' <;> rcases List.mem_cons.1 hb with rfl | hb'
    · rfl
    · exact absurd (hab ▸ List.mem_map_of_mem Creature.id hb') h.1
    · exact absurd (hab ▸ List.mem_map_of_mem Creature.id ha') h.1
    · exact nodup_map_id_eq h.2 a ha' b hb' hab

/-- C5.  After the creature-motion and drone-advance steps of one
`apply_moves`, a creature is newly recorded as scanned by the acting
drone exactly when it was not already recorded and its squared
distance from the *post-move* drone position is within the base radius
(800), or within the powered radius (2000) with the light on. -/
theorem claim_C5_scan_detection :
    ∀ (ops : FloatOps) (s : GameState) (m : Move) (s' : GameState) (d0 d' : Drone),
      apply_moves ops s m = some s' →
      s.my_drones.head? = some d0 →
      s'.my_drones.head? = some d' →
      (s.creatures.map Creature.id).Nodup →
      ∀ c' ∈ s'.creatures, ∀ cx cy : Int, c'.x = some cx → c'.y = some cy →
        (((d0.id, c'.id) ∈ s'.scans ∧ (d0.id, c'.id) ∉ s.scans) ↔
          ((d0.id, c'.id) ∉ s.scans ∧
            ((d'.x - cx) * (d'.x - cx) + (d'.y - cy) * (d'.y - cy) ≤ 640000 ∨
             ((d'.x - cx) * (d'.x - cx) + (d'.y - cy) * (d'.y - cy) ≤ 4000000 ∧
               m.light = true)))) := by
  intro ops s m s' d0 d' h hd0 hd' hnd c' hc' cx cy hcx hcy
  obtain ⟨c1, drone0, drone1, ids, hc1, hd0', hbr, hdet, hfold⟩ := apply_moves_some_elim h
  have hd0eq : d0 = drone0 := Option.some.inj (hd0.symm.trans hd0')
  have hframe := scoreFold_frame _ hfold
  have hd'eq : d' = battUpd m.light drone1 := by
    have hh : s'.my_drones.head? = some (battUpd m.light drone1) := by
      rw [hframe.2.1]; rfl
    exact Option.some.inj (hd'.symm.trans hh)
  have hcrea : s'.creatures = c1 := hframe.1
  have hdid : drone1.id = drone0.id := by
    rcases hbr with ⟨_, tx, ty, _, _, hdr⟩ | ⟨_, hdr⟩ <;> (rw [hdr]; try rfl)
  have hnd1 : (c1.map Creature.id).Nodup := by
    rw [stepCreatures_map_id hc1]; exact hnd
  have hc'1 : c' ∈ c1 := hcrea ▸ hc'
  have hscans : (d0.id, c'.id) ∈ s'.scans ↔ (d0.id, c'.id) ∈ s.scans ∨
      ∃ cid ∈ ids, (d0.id, c'.id) = ((battUpd m.light drone1).id, cid) :=
    scoreFold_scans_mem _ hfold (d0.id, c'.id)
  have hpairid : (battUpd m.light drone1).id = d0.id := by
    rw [hd0eq]; exact hdid
  have hchk : scanCheck (battUpd m.light drone1) m.light s.scans drone0.id c' =
      some ((decide ((d'.x - cx) * (d'.x - cx) + (d'.y - cy) * (d'.y - cy) ≤ 640000) ||
        (decide ((d'.x - cx) * (d'.x - cx) + (d'.y - cy) * (d'.y - cy) ≤ 4000000) &&
          m.light)) && !scansContains s.scans drone0.id c'.id) := by
    rw [hd'eq]
    exact scanCheck_eq _ _ _ _ hcx hcy
  constructor
  · rintro ⟨hin, hnotin⟩
    refine ⟨hnotin, ?_⟩
    rcases hscans.1 hin with hin' | ⟨cid, hcid, hpair⟩
    · exact absurd hin' hnotin
    · obtain ⟨-, rfl⟩ : d0.id = (battUpd m.light drone1).id ∧ c'.id = cid := by
        rw [Prod.mk.injEq] at hpair
        exact hpair
      rw [mem_detectScans _ _ _ _ hdet] at hcid
      obtain ⟨c'', hc''1, hid'', hchk''⟩ := hcid
      obtain rfl : c'' = c' := nodup_map_id_eq hnd1 c'' hc''1 c' hc'1 hid''
      rw [hchk] at hchk''
      have hb := Option.some.inj hchk''
      rw [Bool.and_eq_true, Bool.or_eq_true, Bool.and_eq_true] at hb
      rcases hb.1 with h1 | ⟨h2, hl⟩
      · exact Or.inl (of_decide_eq_true h1)
      · exact Or.inr ⟨of_decide_eq_true h2, hl⟩
  · rintro ⟨hnotin, hcond⟩
    have hws : scansContains s.scans drone0.id c'.id = false := by
      rw [scansContains, decide_eq_false_iff_not]
      rw [hd0eq] at hnotin
      exact hnotin
    have hb : ((decide ((d'.x - cx) * (d'.x - cx) + (d'.y - cy) * (d'.y - cy) ≤ 640000) ||
        (decide ((d'.x - cx) * (d'.x - cx) + (d'.y - cy) * (d'.y - cy) ≤ 4000000) &&
          m.light)) && !scansContains s.scans drone0.id c'.id) = true := by
      rw [hws, Bool.and_eq_true, Bool.or_eq_true, Bool.and_eq_true]
      refine ⟨?_, rfl⟩
      rcases hcond with h1 | ⟨h2, hl⟩
      · exact Or.inl (decide_eq_true h1)
      · exact Or.inr ⟨decide_eq_true h2, hl⟩
    refine ⟨?_, hnotin⟩
    rw [hscans]
    refine Or.inr ⟨c'.id, ?_, by rw [hpairid]⟩
    rw [mem_detectScans _ _ _ _ hdet]
    exact ⟨c', hc'1, rfl, by rw [hchk, hb]⟩

/-- C5 witness: the theorem applied at `exState` / `waitOff` — the
drone sinks onto the creature (distance 0 ≤ 800 with light off), so
the pair (1, 10) is newly recorded. -/
theorem claim_C5_scan_detection_witness :
    ((1, 10) : Int × Int) ∈ exAfter.scans ∧ ((1, 10) : Int × Int) ∉ exState.scans := by
  have h := claim_C5_scan_detection exOps exState waitOff exAfter exMyDrone exAfterDrone
    (by decide) (by decide) (by decide) (by decide)
    ⟨10, 0, some 5000, some 500, some 0, some 0, 0⟩ (by decide) 5000 500
    (by decide) (by decide)
  exact h.mpr (by decide)

theorem foldl_max_const_init (e init : ℚ) : ∀ (l : List Move),
    (l.map fun _ => e).foldl max (max init e) = max init e
  | [] => rfl
  | _ :: ms => by
    rw [List.map_cons, List.foldl_cons, max_assoc, max_self]
    exact foldl_max_const_init e init ms

theorem bestSpec_const (e : ℚ) (mv : Move) (ms : List Move)
    (h : (-2147483648 : ℚ) < e) :
    bestSpec (fun _ => e) (mv :: ms) = some mv := by
  unfold bestSpec
  have hM : (((mv :: ms).map fun _ => e).foldl max (-2147483648)) = e := by
    rw [List.map_cons, List.foldl_cons, foldl_max_const_init,
      max_eq_right (le_of_lt h)]
  rw [hM, if_pos h, List.find?_cons]
  simp

theorem sat_rootScore_exact_low (ops : FloatOps) {s : GameState} {mv : Move}
    (hsat : Saturated s) (hle : satScore s ≤ -2147483648) (hmv : MoveReady mv) :
    rootScore ops s mv = some (-2147483648) := by
  obtain ⟨s', happ, hsat', hscore⟩ := sat_apply ops hsat hmv
  have hplain : plainMinimax ops 3 s' true = some (satScore s) := by
    rw [sat_plain ops 3 true hsat', hscore]
  have h := minimax_top_eq ops 2 (α := -2147483648) (β := 2147483647) hsat'.1
    (by norm_num) hplain (by rw [max_eq_left hle]; norm_num)
  rw [max_eq_left hle] at h
  unfold rootScore
  rw [happ]
  simpa using h

/-- C6 (amended).  The alpha-beta search agrees with unpruned minimax
whenever the unpruned value lies strictly inside the `(alpha, beta)`
window passed in; outside the window the fail-hard fold clamps the
result (see the counterexample at the root window). -/
theorem claim_C6_pruning_window :
    ∀ (ops : FloatOps) (d : Nat) (s : GameState) (p : Bool) (α β v : ℚ),
      StateReady s → α < β → plainMinimax ops d s p = some v →
      α < v → v < β → minimax ops d s α β p = some v :=
  fun ops d s p α β v hs hαβ hplain hαv hvβ =>
    minimax_eq_of_inside ops d hs hαβ hplain hαv hvβ

/-- C6 witness: at `zeroState` (every evaluation 0, strictly inside
the root window) pruned and unpruned search agree at depth 1. -/
theorem claim_C6_pruning_window_witness :
    plainMinimax exOps 1 zeroState true = some 0 ∧
    minimax exOps 1 zeroState (-2147483648) 2147483647 true = some 0 := by
  have hz : satScore zeroState = 0 := by norm_num [satScore, zeroState]
  have hplain : plainMinimax exOps 1 zeroState true = some 0 := by
    rw [sat_plain exOps 1 true (by decide), hz]
  exact ⟨hplain, claim_C6_pruning_window exOps 1 zeroState true _ _ 0 (by decide)
    (by norm_num) hplain (by norm_num) (by norm_num)⟩

/-- C6 counterexample: at `negState` every leaf evaluates to `-10^11`,
below `i32::MIN as f64`; already at depth 1 the alpha-beta value at
the root window is the clamped `-2^31` while the unpruned minimax
value is `-10^11` — the two results differ. -/
theorem claim_C6_counterexample :
    minimax exOps 1 negState (-2147483648) 2147483647 true = some (-2147483648) ∧
    plainMinimax exOps 1 negState true = some (-100000000000) ∧
    ((-2147483648 : ℚ) ≠ (-100000000000 : ℚ)) := by
  have hneg : satScore negState = -100000000000 := by norm_num [satScore, negState]
  have hplain1 : plainMinimax exOps 1 negState true = some (satScore negState) :=
    sat_plain exOps 1 true (by decide)
  refine ⟨?_, by rw [hplain1, hneg], by norm_num⟩
  have hle : satScore negState ≤ -2147483648 := by rw [hneg]; norm_num
  have h := minimax_top_eq exOps 0 (s := negState) (α := -2147483648) (β := 2147483647)
    (by decide) (by norm_num) hplain1 (by rw [max_eq_left hle]; norm_num)
  rw [max_eq_left hle] at h
  exact h

/-- C3 (amended).  The Move Selector's result is `bestSpec`: the
*first-seen* shuffled candidate attaining the maximal root score,
provided that maximum strictly exceeds the initial threshold
`i32::MIN as f64` — otherwise it returns no move at all; and each root
score is obtained by applying the Forward Simulator and then running
`minimax` at depth 3 with the *maximizing* flag. -/
theorem claim_C3_selector :
    (∀ (ops : FloatOps) (shuffle : List Move → List Move) (s : GameState)
      (moves : List Move) (f : Move → ℚ),
      get_possible_moves s = some moves →
      (∀ mv ∈ shuffle moves, rootScore ops s mv = some (f mv)) →
      find_best_move ops shuffle s = some (bestSpec f (shuffle moves))) ∧
    (∀ (ops : FloatOps) (s : GameState) (mv : Move),
      rootScore ops s mv = (apply_moves ops s mv).bind
        (fun s' => minimax ops 3 s' (-2147483648) 2147483647 true)) :=
  ⟨fun ops shuffle s moves f h1 h2 => find_best_move_eq ops shuffle h1 f h2,
   fun _ _ _ => rfl⟩

/-- C3 witness: at `zeroState` every candidate scores 0 > `i32::MIN`,
so the selector returns the first-seen candidate. -/
theorem claim_C3_selector_witness :
    find_best_move exOps (fun l => l) zeroState =
      some (some ⟨true, some 5600, some 5600, true⟩) := by
  have hz : satScore zeroState = 0 := by norm_num [satScore, zeroState]
  have hgpm : get_possible_moves zeroState = some centerMoves := by decide
  have hf : ∀ mv ∈ (fun l => l) centerMoves,
      rootScore exOps zeroState mv = some ((fun _ => (0 : ℚ)) mv) := by
    intro mv hmv
    have hr := @sat_rootScore_eq exOps zeroState mv (by decide)
      (by rw [hz]; norm_num) (by rw [hz]; norm_num)
      (get_possible_moves_ready hgpm hmv)
    rw [hr, hz]
  have h := claim_C3_selector.1 exOps (fun l => l) zeroState centerMoves
    (fun _ => 0) hgpm hf
  rw [h]
  have hb : bestSpec (fun _ => (0 : ℚ)) centerMoves =
      some ⟨true, some 5600, some 5600, true⟩ :=
    bestSpec_const 0 _ _ (by norm_num)
  rw [hb]

/-- C3 counterexample: at `negState` the ten candidates all exist and
all score exactly `i32::MIN as f64` (the clamped value of a position
whose true evaluation is `-10^11`), yet the selector returns *no*
candidate at all — not the first-seen highest-scoring one, because no
score strictly exceeds the initial best. -/
theorem claim_C3_counterexample :
    get_possible_moves negState = some centerMoves ∧
    centerMoves.length = 10 ∧
    rootScore exOps negState waitOff = some (-2147483648) ∧
    find_best_move exOps (fun l => l) negState = some none := by
  have hneg : satScore negState = -100000000000 := by norm_num [satScore, negState]
  have hle : satScore negState ≤ -2147483648 := by rw [hneg]; norm_num
  have hgpm : get_possible_moves negState = some centerMoves := by decide
  refine ⟨hgpm, by decide, ?_, ?_⟩
  · exact sat_rootScore_exact_low exOps (by decide) hle (by decide)
  · exact find_best_move_none exOps (fun l => l) hgpm
      (fun mv hmv => sat_rootScore_le exOps (by decide) hle
        (get_possible_moves_ready hgpm hmv))

end FC2023
